import Mathlib

/-!
Verification development for the css-ts setup tool (`tools/css_ts_setup.py`).

The Python source is shallowly embedded: strings are lists of characters,
the project directory is an association list from filenames to contents,
JSON documents are an inductive type, and each config mutator returns the
resulting directory together with its write log and `UpdateResult` record.
-/

set_option maxHeartbeats 1000000

abbrev Str := List Char

/-- Character list of a string literal (embedding convenience). -/
def lc (s : String) : Str := s.data

/-- Scanner core of `strip_json_comments`: one step per character, with the
three mutually exclusive flags `in_string`, `in_single`, `in_multi` checked
in the same order as the Python loop; two characters are consumed at once
for `\\x`, `//`, `/*` and `*/`. -/
def stripAux : Str → Bool → Bool → Bool → Str
  | [], _, _, _ => []
  | [c], _, inSingle, inMulti =>
    if inSingle then (if c = '\n' then [c] else [])
    else if inMulti then []
    else [c]
  | c :: nxt :: rest, inString, inSingle, inMulti =>
    if inSingle then
      if c = '\n' then c :: stripAux (nxt :: rest) inString false inMulti
      else stripAux (nxt :: rest) inString inSingle inMulti
    else if inMulti then
      if c = '*' ∧ nxt = '/' then stripAux rest inString inSingle false
      else stripAux (nxt :: rest) inString inSingle inMulti
    else if inString then
      if c = '\\' then c :: nxt :: stripAux rest inString inSingle inMulti
      else if c = '"' then c :: stripAux (nxt :: rest) false inSingle inMulti
      else c :: stripAux (nxt :: rest) inString inSingle inMulti
    else
      if c = '"' then c :: stripAux (nxt :: rest) true inSingle inMulti
      else if c = '/' ∧ nxt = '/' then stripAux rest inString true inMulti
      else if c = '/' ∧ nxt = '*' then stripAux rest inString inSingle true
      else c :: stripAux (nxt :: rest) inString inSingle inMulti

/-- Embedding of `strip_json_comments`. -/
def strip_json_comments (s : Str) : Str := stripAux s false false false

/-- The four mutually exclusive lexical states named by the specification. -/
inductive JsonScanState where
  | plain
  | stringLit
  | lineComment
  | blockComment
deriving DecidableEq

/-- Scanner written from the specification text: an unescaped quote outside
any comment toggles string state, `//` outside a string starts a line
comment whose newline is preserved, `/*` starts a block comment dropped up
to and including `*/`, and inside a string a backslash plus the following
character is copied as a two-character unit. -/
def specScan : Str → JsonScanState → Str
  | [], _ => []
  | [c], st =>
    match st with
    | .lineComment => if c = '\n' then [c] else []
    | .blockComment => []
    | _ => [c]
  | c :: nxt :: rest, st =>
    match st with
    | .lineComment =>
      if c = '\n' then c :: specScan (nxt :: rest) .plain
      else specScan (nxt :: rest) .lineComment
    | .blockComment =>
      if c = '*' ∧ nxt = '/' then specScan rest .plain
      else specScan (nxt :: rest) .blockComment
    | .stringLit =>
      if c = '\\' then c :: nxt :: specScan rest .stringLit
      else if c = '"' then c :: specScan (nxt :: rest) .plain
      else c :: specScan (nxt :: rest) .stringLit
    | .plain =>
      if c = '"' then c :: specScan (nxt :: rest) .stringLit
      else if c = '/' ∧ nxt = '/' then specScan rest .lineComment
      else if c = '/' ∧ nxt = '*' then specScan rest .blockComment
      else c :: specScan (nxt :: rest) .plain

/-- Correspondence between the Python flag triple and the specification
state, respecting the order in which the Python loop tests the flags. -/
def flagsState (inString inSingle inMulti : Bool) : JsonScanState :=
  if inSingle then .lineComment
  else if inMulti then .blockComment
  else if inString then .stringLit
  else .plain

theorem stripAux_eq_specScan :
    ∀ (n : Nat) (s : Str), s.length ≤ n →
    ∀ (inString inSingle inMulti : Bool),
      (¬ (inString = true ∧ inSingle = true)) →
      (¬ (inString = true ∧ inMulti = true)) →
      (¬ (inSingle = true ∧ inMulti = true)) →
      stripAux s inString inSingle inMulti =
        specScan s (flagsState inString inSingle inMulti) := by
  intro n
  induction n with
  | zero =>
    intro s hs b1 b2 b3 _ _ _
    have : s = [] := List.eq_nil_of_length_eq_zero (Nat.le_zero.mp hs)
    subst this
    cases b1 <;> cases b2 <;> cases b3 <;> rfl
  | succ n ih =>
    intro s hs b1 b2 b3 h12 h13 h23
    match s with
    | [] => cases b1 <;> cases b2 <;> cases b3 <;> rfl
    | [c] =>
      cases b1 <;> cases b2 <;> cases b3 <;>
        simp_all [stripAux, specScan, flagsState]
    | c :: nxt :: rest =>
      have hr : (nxt :: rest).length ≤ n := by
        simpa using Nat.le_of_succ_le_succ hs
      have hr2 : rest.length ≤ n := Nat.le_trans (Nat.le_succ _) hr
      cases b1 <;> cases b2 <;> cases b3 <;>
        simp_all [stripAux, specScan, flagsState, ih (nxt :: rest) hr, ih rest hr2]

/-- Main C3 equivalence: the Python scanner equals the four-state scanner
described by the specification, started in plain-code state. -/
theorem strip_json_comments_eq_specScan (s : Str) :
    strip_json_comments s = specScan s JsonScanState.plain := by
  simpa [flagsState] using
    stripAux_eq_specScan s.length s (Nat.le_refl _) false false false
      (by simp) (by simp) (by simp)

/-! ## Association lists with Python `dict` semantics -/

/-- Python `dict` lookup on an insertion-ordered association list. -/
def dictGet {α : Type} (k : Str) : List (Str × α) → Option α
  | [] => none
  | (k', v) :: rest => if k' = k then some v else dictGet k rest

/-- Python `dict` assignment: replace in place, else append at the end. -/
def dictSet {α : Type} (k : Str) (v : α) : List (Str × α) → List (Str × α)
  | [] => [(k, v)]
  | (k', v') :: rest => if k' = k then (k, v) :: rest else (k', v') :: dictSet k v rest

@[simp] theorem dictGet_dictSet_self {α : Type} (k : Str) (v : α)
    (l : List (Str × α)) : dictGet k (dictSet k v l) = some v := by
  induction l with
  | nil => simp [dictGet, dictSet]
  | cons h t ih =>
    by_cases hk : h.1 = k <;> simp [dictGet, dictSet, hk, ih]

theorem dictGet_dictSet_ne {α : Type} (k k' : Str) (v : α)
    (l : List (Str × α)) (h : k ≠ k') : dictGet k' (dictSet k v l) = dictGet k' l := by
  induction l with
  | nil => simp [dictGet, dictSet, h]
  | cons hd t ih =>
    by_cases hk : hd.1 = k
    · simp [dictGet, dictSet, hk, h, Ne.symm h]
    · by_cases hk' : hd.1 = k' <;>
        simp [dictGet, dictSet, hk, hk', Ne.symm h, ih]

/-! ## JSON documents -/

inductive Json where
  | null
  | bool (b : Bool)
  | num (n : Int)
  | str (s : Str)
  | arr (elems : List Json)
  | obj (members : List (Str × Json))

/-- Indentation run used by the 2-space pretty printer. -/
def spaces (n : Nat) : Str := List.replicate n ' '

def hexDigit (n : Nat) : Char :=
  if n < 10 then Char.ofNat (48 + n) else Char.ofNat (87 + n)

def uEscape (n : Nat) : Str :=
  ['\\', 'u', hexDigit (n / 4096 % 16), hexDigit (n / 256 % 16),
   hexDigit (n / 16 % 16), hexDigit (n % 16)]

/-- Escaping performed by `json.dumps` with its default `ensure_ascii`. -/
def escapeChar (c : Char) : Str :=
  if c = '"' then ['\\', '"']
  else if c = '\\' then ['\\', '\\']
  else if c = '\n' then ['\\', 'n']
  else if c = '\r' then ['\\', 'r']
  else if c = '\t' then ['\\', 't']
  else if c = '\x08' then ['\\', 'b']
  else if c = '\x0c' then ['\\', 'f']
  else if c.toNat < 0x20 then uEscape c.toNat
  else if c.toNat < 0x7f then [c]
  else if c.toNat < 0x10000 then uEscape c.toNat
  else uEscape (0xd800 + (c.toNat - 0x10000) / 1024) ++
       uEscape (0xdc00 + (c.toNat - 0x10000) % 1024)

def dumpStr (s : Str) : Str :=
  '"' :: s.foldr (fun c acc => escapeChar c ++ acc) ['"']

mutual

/-- Embedding of `json.dumps(v, indent=2)` at a given indentation level. -/
def dumpsVal : Json → Nat → Str
  | .null, _ => lc "null"
  | .bool true, _ => lc "true"
  | .bool false, _ => lc "false"
  | .num n, _ => lc (toString n)
  | .str s, _ => dumpStr s
  | .arr [], _ => lc "[]"
  | .arr (x :: xs), ind =>
      '[' :: '\n' :: (spaces (ind + 2) ++ dumpsVal x (ind + 2) ++
        dumpsArrRest xs (ind + 2) ++ '\n' :: (spaces ind ++ [']']))
  | .obj [], _ => ['\x7b', '\x7d']
  | .obj (m :: ms), ind =>
      '\x7b' :: '\n' :: (spaces (ind + 2) ++ dumpStr m.1 ++ ':' :: ' ' ::
        (dumpsVal m.2 (ind + 2) ++ dumpsObjRest ms (ind + 2) ++
         '\n' :: (spaces ind ++ ['\x7d'])))

def dumpsArrRest : List Json → Nat → Str
  | [], _ => []
  | x :: xs, ind =>
      ',' :: '\n' :: (spaces ind ++ dumpsVal x ind ++ dumpsArrRest xs ind)

def dumpsObjRest : List (Str × Json) → Nat → Str
  | [], _ => []
  | m :: ms, ind =>
      ',' :: '\n' :: (spaces ind ++ dumpStr m.1 ++ ':' :: ' ' ::
        (dumpsVal m.2 ind ++ dumpsObjRest ms ind))

end

/-- Serialized file body written by the mutators:
`json.dumps(config, indent=2) + "\n"`. -/
def dumpsFile (v : Json) : Str := dumpsVal v 0 ++ ['\n']

/-! ## Strict JSON parser (model of `json.loads`) -/

def jsonWs (c : Char) : Bool := c = ' ' || c = '\t' || c = '\n' || c = '\r'

def skipJsonWs (s : Str) : Str := s.dropWhile jsonWs

def hexVal (c : Char) : Option Nat :=
  if '0' ≤ c ∧ c ≤ '9' then some (c.toNat - 48)
  else if 'a' ≤ c ∧ c ≤ 'f' then some (c.toNat - 87)
  else if 'A' ≤ c ∧ c ≤ 'F' then some (c.toNat - 55)
  else none

def hex4 (s : Str) : Option (Nat × Str) :=
  match s with
  | a :: b :: c :: d :: rest =>
    match hexVal a, hexVal b, hexVal c, hexVal d with
    | some x, some y, some z, some w => some (x * 4096 + y * 256 + z * 16 + w, rest)
    | _, _, _, _ => none
  | _ => none

/-- String-body parser: the opening quote has already been consumed. -/
def pString : Nat → Str → Option (Str × Str)
  | 0, _ => none
  | _, [] => none
  | fuel + 1, c :: rest =>
    if c = '"' then some ([], rest)
    else if c = '\\' then
      match rest with
      | [] => none
      | e :: rest2 =>
        if e = '"' then (pString fuel rest2).map (fun p => ('"' :: p.1, p.2))
        else if e = '\\' then (pString fuel rest2).map (fun p => ('\\' :: p.1, p.2))
        else if e = '/' then (pString fuel rest2).map (fun p => ('/' :: p.1, p.2))
        else if e = 'b' then (pString fuel rest2).map (fun p => ('\x08' :: p.1, p.2))
        else if e = 'f' then (pString fuel rest2).map (fun p => ('\x0c' :: p.1, p.2))
        else if e = 'n' then (pString fuel rest2).map (fun p => ('\n' :: p.1, p.2))
        else if e = 'r' then (pString fuel rest2).map (fun p => ('\r' :: p.1, p.2))
        else if e = 't' then (pString fuel rest2).map (fun p => ('\t' :: p.1, p.2))
        else if e = 'u' then
          match hex4 rest2 with
          | none => none
          | some (n, rest3) =>
            if 0xd800 ≤ n ∧ n ≤ 0xdbff then
              match rest3 with
              | '\\' :: 'u' :: rest4 =>
                match hex4 rest4 with
                | some (n2, rest5) =>
                  if 0xdc00 ≤ n2 ∧ n2 ≤ 0xdfff then
                    (pString fuel rest5).map (fun p =>
                      (Char.ofNat (0x10000 + (n - 0xd800) * 1024 + (n2 - 0xdc00)) :: p.1, p.2))
                  else none
                | none => none
              | _ => none
            else if 0xdc00 ≤ n ∧ n ≤ 0xdfff then none
            else (pString fuel rest3).map (fun p => (Char.ofNat n :: p.1, p.2))
        else none
    else if c.toNat < 0x20 then none
    else (pString fuel rest).map (fun p => (c :: p.1, p.2))

def pNat (s : Str) : Option (Nat × Str) :=
  let ds := s.takeWhile (fun c => '0' ≤ c ∧ c ≤ '9')
  if ds = [] then none
  else some (ds.foldl (fun a c => a * 10 + (c.toNat - 48)) 0, s.drop ds.length)

def pNum (s : Str) : Option (Int × Str) :=
  match s with
  | '-' :: rest => (pNat rest).map (fun p => (-(p.1 : Int), p.2))
  | _ => (pNat s).map (fun p => ((p.1 : Int), p.2))

mutual

def pVal : Nat → Str → Option (Json × Str)
  | 0, _ => none
  | fuel + 1, s =>
    match skipJsonWs s with
    | [] => none
    | c :: rest =>
      if c = '\x7b' then (pObjBody fuel rest).map (fun p => (Json.obj p.1, p.2))
      else if c = '[' then (pArrBody fuel rest).map (fun p => (Json.arr p.1, p.2))
      else if c = '"' then (pString fuel rest).map (fun p => (Json.str p.1, p.2))
      else if (lc "true").isPrefixOf (c :: rest) then some (Json.bool true, (c :: rest).drop 4)
      else if (lc "false").isPrefixOf (c :: rest) then some (Json.bool false, (c :: rest).drop 5)
      else if (lc "null").isPrefixOf (c :: rest) then some (Json.null, (c :: rest).drop 4)
      else if c = '-' ∨ ('0' ≤ c ∧ c ≤ '9') then
        (pNum (c :: rest)).map (fun p => (Json.num p.1, p.2))
      else none

def pMember : Nat → Str → Option ((Str × Json) × Str)
  | 0, _ => none
  | fuel + 1, s =>
    match skipJsonWs s with
    | '"' :: rest =>
      match pString fuel rest with
      | none => none
      | some (k, r1) =>
        match skipJsonWs r1 with
        | ':' :: r2 => (pVal fuel r2).map (fun p => ((k, p.1), p.2))
        | _ => none
    | _ => none

def pObjTail : Nat → List (Str × Json) → Str → Option (List (Str × Json) × Str)
  | 0, _, _ => none
  | fuel + 1, acc, s =>
    match skipJsonWs s with
    | '\x7d' :: rest => some (acc, rest)
    | ',' :: rest =>
      match pMember fuel rest with
      | none => none
      | some (m, r1) => pObjTail fuel (dictSet m.1 m.2 acc) r1
    | _ => none

def pObjBody : Nat → Str → Option (List (Str × Json) × Str)
  | 0, _ => none
  | fuel + 1, s =>
    match skipJsonWs s with
    | '\x7d' :: rest => some ([], rest)
    | _ =>
      match pMember fuel s with
      | none => none
      | some (m, r1) => pObjTail fuel (dictSet m.1 m.2 []) r1

def pArrTail : Nat → List Json → Str → Option (List Json × Str)
  | 0, _, _ => none
  | fuel + 1, acc, s =>
    match skipJsonWs s with
    | ']' :: rest => some (acc.reverse, rest)
    | ',' :: rest =>
      match pVal fuel rest with
      | none => none
      | some (v, r1) => pArrTail fuel (v :: acc) r1
    | _ => none

def pArrBody : Nat → Str → Option (List Json × Str)
  | 0, _ => none
  | fuel + 1, s =>
    match skipJsonWs s with
    | ']' :: rest => some ([], rest)
    | _ =>
      match pVal fuel s with
      | none => none
      | some (v, r1) => pArrTail fuel [v] r1

end

/-- Model of `json.loads` (strict JSON; integral numbers only). -/
def loads (s : Str) : Option Json :=
  match pVal (4 * s.length + 8) s with
  | some (v, rest) => if skipJsonWs rest = [] then some v else none
  | none => none

/-- Embedding of `parse_json_like`. -/
def parse_json_like (s : Str) : Option Json := loads (strip_json_comments s)

/-! ## Project directory model -/

/-- A project directory: filenames mapped to whole-file contents. -/
abbrev FS := List (Str × Str)

def readFile (fs : FS) (name : Str) : Option Str := dictGet name fs

def writeFile (fs : FS) (name content : Str) : FS := dictSet name content fs

/-- Embedding of `find_first`: first candidate that exists in the directory. -/
def find_first (fs : FS) : List Str → Option Str
  | [] => none
  | n :: rest => if (readFile fs n).isSome then some n else find_first fs rest

def DENO_CONFIG_CANDIDATES : List Str := [lc "deno.json", lc "deno.jsonc"]

def VITE_CONFIG_CANDIDATES : List Str :=
  [lc "vite.config.ts", lc "vite.config.js", lc "vite.config.mjs",
   lc "vite.config.mts", lc "vite.config.cjs"]

/-- Embedding of the `UpdateResult` dataclass. -/
structure UpdateResult where
  changed : Bool := false
  notes : List Str := []
  warnings : List Str := []
deriving DecidableEq

/-- A mutator's outcome: resulting directory, write log, `UpdateResult`. -/
structure MutOut where
  fs : FS
  writes : List (Str × Str)
  result : UpdateResult
deriving DecidableEq

/-- Embedding of `read_css_ts_specifier`; the tool's own `deno.json`
descriptor (a file outside the project directory) is passed as an explicit
`Option` of its content, `none` covering a missing or unreadable file.  The
`try`/`except` of the source is modelled by the fallback arms: a non-object
document or a missing/empty/non-string `version` field falls back. -/
def read_css_ts_specifier (descriptor : Option Str) : Str :=
  match descriptor with
  | none => lc "npm:@jsr/kt-tools__css-ts"
  | some text =>
    match loads text with
    | some (Json.obj d) =>
      match dictGet (lc "version") d with
      | some (Json.str v) =>
        if v ≠ [] then lc "npm:@jsr/kt-tools__css-ts@^" ++ v
        else lc "npm:@jsr/kt-tools__css-ts"
      | _ => lc "npm:@jsr/kt-tools__css-ts"
    | _ => lc "npm:@jsr/kt-tools__css-ts"

/-- The five required import-map entries of `update_deno_config`, with the
version pins of `README_VERSIONS`. -/
def requiredImports (descriptor : Option Str) : List (Str × Str) :=
  [ (lc "@kt-tools/css-ts", read_css_ts_specifier descriptor),
    (lc "@sveltejs/kit", lc "npm:@sveltejs/kit@^2.50.2"),
    (lc "@sveltejs/vite-plugin-svelte", lc "npm:@sveltejs/vite-plugin-svelte@^6.2.4"),
    (lc "svelte", lc "npm:svelte@^5.49.2"),
    (lc "vite", lc "npm:vite@^7.3.1") ]

/-- Embedding of `ensure_object` on an object that is a Python `dict`:
returns the (possibly freshly created) member object together with the
updated target; mutating the returned object corresponds to `dictSet`-ing
it back under the same key, which preserves its position. -/
def ensure_object (target : List (Str × Json)) (key : Str) :
    List (Str × Json) × List (Str × Json) :=
  match dictGet key target with
  | some (Json.obj o) => (o, target)
  | _ => ([], dictSet key (Json.obj []) target)

/-- The `for key, value in required_imports.items()` loop of
`update_deno_config`: insert the pairs whose key is absent, reporting
whether any insertion happened. -/
def insertRequired : List (Str × Str) → List (Str × Json) → List (Str × Json) × Bool
  | [], imp => (imp, false)
  | (k, v) :: rest, imp =>
    if (dictGet k imp).isSome then insertRequired rest imp
    else ((insertRequired rest (dictSet k (Json.str v) imp)).1, true)

/-- Does `config.get("nodeModulesDir")` equal the string `"auto"`? -/
def nmdIsAuto (config : List (Str × Json)) : Bool :=
  match dictGet (lc "nodeModulesDir") config with
  | some (Json.str s) => s = lc "auto"
  | _ => false

/-- The in-memory mutation performed by `update_deno_config` on a parsed
top-level object, returning the final object and the `changed` flag. -/
def denoMutate (descriptor : Option Str) (config : List (Str × Json)) :
    List (Str × Json) × Bool :=
  let p1 := ensure_object config (lc "imports")
  let p2 := insertRequired (requiredImports descriptor) p1.1
  let config2 := dictSet (lc "imports") (Json.obj p2.1) p1.2
  if nmdIsAuto config2 then (config2, p2.2)
  else (dictSet (lc "nodeModulesDir") (Json.str (lc "auto")) config2, true)

/-- Embedding of `update_deno_config`.  A `.error ()` result models the
uncaught `AttributeError` raised by `ensure_object` when the parsed
document is not an object (the `try` block only guards the parse). -/
def update_deno_config (descriptor : Option Str) (fs : FS) : Except Unit MutOut :=
  match find_first fs DENO_CONFIG_CANDIDATES with
  | none => .ok ⟨fs, [],
      ⟨false, [], [lc "No deno.json/deno.jsonc found. Skipped Deno import map updates."]⟩⟩
  | some name =>
    let original := (readFile fs name).getD []
    match parse_json_like original with
    | none => .ok ⟨fs, [],
        ⟨false, [], [lc "Failed to parse " ++ name ++ lc ". Skipped import map updates."]⟩⟩
    | some (Json.obj config) =>
      let m := denoMutate descriptor config
      if m.2 then
        let content := dumpsFile (Json.obj m.1)
        .ok ⟨writeFile fs name content, [(name, content)],
          ⟨true,
           [lc "Updated " ++ name ++ lc " with import map entries and nodeModulesDir."],
           if (lc ".jsonc").isSuffixOf name then
             [lc "Rewrote " ++ name ++ lc " as JSON (comments removed)."]
           else []⟩⟩
      else .ok ⟨fs, [], ⟨false, [], []⟩⟩
    | some _ => .error ()

/-- Dependencies object of `update_package_json` after inserting the
target key (`deps["@kt-tools/css-ts"] = read_css_ts_specifier()`). -/
def pkgNewDeps (descriptor : Option Str) (pkg : List (Str × Json)) :
    List (Str × Json) :=
  dictSet (lc "@kt-tools/css-ts") (Json.str (read_css_ts_specifier descriptor))
    (ensure_object pkg (lc "dependencies")).1

/-- Top-level object written back by `update_package_json` when the target
dependency was absent. -/
def pkgNewObj (descriptor : Option Str) (pkg : List (Str × Json)) :
    List (Str × Json) :=
  dictSet (lc "dependencies") (Json.obj (pkgNewDeps descriptor pkg))
    (ensure_object pkg (lc "dependencies")).2

/-- Embedding of `update_package_json`; strict JSON parse, no comment
stripping.  As in `update_deno_config`, a non-object document makes
`ensure_object` raise, modelled by `.error ()`. -/
def update_package_json (descriptor : Option Str) (fs : FS) : Except Unit MutOut :=
  match readFile fs (lc "package.json") with
  | none => .ok ⟨fs, [],
      ⟨false, [], [lc "No package.json found. Skipped npm dependency updates."]⟩⟩
  | some original =>
    match loads original with
    | none => .ok ⟨fs, [],
        ⟨false, [], [lc "Failed to parse package.json. Skipped dependency updates."]⟩⟩
    | some (Json.obj pkg) =>
      if (dictGet (lc "@kt-tools/css-ts") (ensure_object pkg (lc "dependencies")).1).isSome then
        .ok ⟨fs, [], ⟨false, [], []⟩⟩
      else
        let content := dumpsFile (Json.obj (pkgNewObj descriptor pkg))
        .ok ⟨writeFile fs (lc "package.json") content,
             [(lc "package.json", content)],
             ⟨true, [lc "Added @kt-tools/css-ts to dependencies in package.json."], []⟩⟩
    | some _ => .error ()

/-! ## Text patterns used by `update_vite_config` -/

/-- Characters matched by Python `\s` on ASCII text. -/
def isPySpace (c : Char) : Bool :=
  c = ' ' || c = '\t' || c = '\n' || c = '\r' || c = '\x0b' || c = '\x0c'

/-- A token of the literal-and-whitespace regexes of the source:
either a fixed literal or a greedy `\s*` run. -/
inductive PatTok where
  | lit (l : Str)
  | ws

/-- Match a token list at the head of a string, returning the length of the
matched region.  A `\s*` run is deterministic here because in every source
pattern it is followed by a non-space literal. -/
def matchToks : List PatTok → Str → Option Nat
  | [], _ => some 0
  | .lit l :: rest, s =>
    if l.isPrefixOf s then (matchToks rest (s.drop l.length)).map (· + l.length)
    else none
  | .ws :: rest, s =>
    let n := (s.takeWhile isPySpace).length
    (matchToks rest (s.drop n)).map (· + n)

/-- Scan left to right for the first position where the pattern matches. -/
def ffAux (p : List PatTok) : Str → Nat → Option (Nat × Nat)
  | [], i =>
    match matchToks p [] with
    | some L => some (i, L)
    | none => none
  | s@(_ :: t), i =>
    match matchToks p s with
    | some L => some (i, L)
    | none => ffAux p t (i + 1)

/-- Leftmost match of a pattern: model of `re.search`. -/
def findFirstMatch (p : List PatTok) (s : Str) : Option (Nat × Nat) := ffAux p s 0

/-- Model of `re.sub(pattern, repl, s, count=1)`. -/
def subFirst (p : List PatTok) (repl : Str) (s : Str) : Str :=
  match findFirstMatch p s with
  | none => s
  | some (q, L) => s.take q ++ repl ++ s.drop (q + L)

def sveltekitPat : List PatTok :=
  [.lit (lc "sveltekit"), .ws, .lit (lc "("), .ws, .lit (lc ")")]

def pluginsPat : List PatTok :=
  [.lit (lc "plugins"), .ws, .lit (lc ":"), .ws, .lit (lc "[")]

def resolvePat : List PatTok :=
  [.lit (lc "resolve"), .ws, .lit (lc ":"), .ws, .lit (lc "\x7b")]

def aliasPat : List PatTok :=
  [.lit (lc "alias"), .ws, .lit (lc ":"), .ws, .lit (lc "\x7b")]

def defineConfigPat : List PatTok :=
  [.lit (lc "defineConfig("), .ws, .lit (lc "\x7b")]

/-- Python substring test `pat in s`. -/
def containsB (pat : Str) : Str → Bool
  | [] => pat.isPrefixOf []
  | s@(_ :: t) => pat.isPrefixOf s || containsB pat t

def cssTsMarker : Str := lc "@kt-tools/css-ts"

def importLine : Str := lc "import ct from \"@kt-tools/css-ts\";"

def ctViteToken : Str := lc "ct.vite"

def jsrToken : Str := lc "@jsr/kt-tools__css-ts"

def sveltekitRepl : Str := lc "ct.vite(), sveltekit()"

def pluginsRepl : Str := lc "plugins: [ct.vite(), "

def aliasRepl : Str :=
  lc "alias: \x7b\n      \"@kt-tools/css-ts\": \"@jsr/kt-tools__css-ts\","

def resolveRepl : Str :=
  lc "resolve: \x7b\n    alias: \x7b\n      \"@kt-tools/css-ts\": \"@jsr/kt-tools__css-ts\",\n    \x7d,"

def aliasSnippet : Str :=
  lc "  resolve: \x7b\n    alias: \x7b\n      \"@kt-tools/css-ts\": \"@jsr/kt-tools__css-ts\",\n    \x7d,\n  \x7d,\n"

/-! ## The multiline import regex `^import[^;\n]*;?\s*$` -/

def importKw : Str := lc "import"

/-- Index of the last newline of a region, if any. -/
def lastNl : Str → Option Nat
  | [] => none
  | c :: t =>
    match lastNl t with
    | some i => some (i + 1)
    | none => if c = '\n' then some 0 else none

/-- Given the position `k` reached after `import[^;\n]*;?`, resolve the
greedy `\s*$` with multiline `$`: the match extends over the following
whitespace run up to the last newline inside it, or to the end of the
string when the run reaches it; otherwise there is no match. -/
def endFromWs (s : Str) (k : Nat) : Option Nat :=
  let run := (s.drop k).takeWhile isPySpace
  if k + run.length = s.length then some (k + run.length)
  else
    match lastNl run with
    | some i => some (k + i)
    | none => none

/-- Position reached after `import[^;\n]*`: the keyword plus the maximal
run of characters that are neither `;` nor a newline. -/
def importBodyEnd (s : Str) : Nat :=
  6 + ((s.drop 6).takeWhile (fun c => ¬ (c = ';' ∨ c = '\n'))).length

/-- Match `import[^;\n]*;?\s*$` at the head of the string (the `^` anchor
is the scanner's concern), returning the match length. -/
def importMatchAt (s : Str) : Option Nat :=
  if importKw.isPrefixOf s then
    match (s.drop (importBodyEnd s)).head? with
    | some ';' => endFromWs s (importBodyEnd s + 1)
    | _ => endFromWs s (importBodyEnd s)
  else none

/-- Scanner for `re.finditer` over the multiline import pattern:
non-overlapping matches, `^` anchored at the string start and right after
each newline, resuming after each match end. -/
def imAux : Nat → Str → Nat → Bool → List (Nat × Nat)
  | 0, _, _, _ => []
  | fuel + 1, s, i, anchored =>
    match anchored, importMatchAt s with
    | true, some L =>
      (i, L) :: imAux fuel (s.drop L) (i + L) (decide ((s.take L).getLast? = some '\n'))
    | _, _ =>
      match s with
      | [] => []
      | c :: t => imAux fuel t (i + 1) (decide (c = '\n'))

def importMatches (s : Str) : List (Nat × Nat) := imAux (s.length + 1) s 0 true

/-- Embedding of `insert_import`. -/
def insert_import (source import_line : Str) : Str :=
  match (importMatches source).getLast? with
  | none => import_line ++ '\n' :: source
  | some (b, L) =>
    source.take (b + L) ++ '\n' :: (import_line ++ source.drop (b + L))

/-! ## The vite config mutator -/

/-- Plugin-registration stage of `update_vite_config` (lines 228-237). -/
def registerPlugin (u : Str) : Str × Bool × List Str :=
  if containsB ctViteToken u then (u, false, [])
  else
    let replaced := subFirst sveltekitPat sveltekitRepl u
    if replaced ≠ u then (replaced, true, [])
    else if (findFirstMatch pluginsPat u).isSome then
      (subFirst pluginsPat pluginsRepl u, true, [])
    else
      (u, false,
       [lc "Could not find a plugins array in vite.config. Add ct.vite() manually."])

/-- Module-alias stage of `update_vite_config` (lines 239-271, Deno mode). -/
def aliasStage (u : Str) : Str × Bool × List Str :=
  if containsB jsrToken u then (u, false, [])
  else if (findFirstMatch resolvePat u).isSome then
    if (findFirstMatch aliasPat u).isSome then
      (subFirst aliasPat aliasRepl u, true, [])
    else
      (subFirst resolvePat resolveRepl u, true, [])
  else
    match findFirstMatch defineConfigPat u with
    | some (q, L) =>
      (u.take (q + L) ++ '\n' :: (aliasSnippet ++ u.drop (q + L)), true, [])
    | none =>
      (u, false, [lc "Could not insert Vite resolve.alias entry. Add it manually."])

/-- The three cumulative text transformations of `update_vite_config` on
the in-memory buffer, with the overall `changed` flag and warnings. -/
def viteTransform (u : Str) (deno_mode : Bool) : Str × Bool × List Str :=
  let s1 := if containsB cssTsMarker u then (u, false)
            else (insert_import u importLine, true)
  let s2 := registerPlugin s1.1
  let s3 := if deno_mode then aliasStage s2.1 else (s2.1, false, [])
  (s3.1, s1.2 || (s2.2.1 || s3.2.1), s2.2.2 ++ s3.2.2)

/-- Embedding of `update_vite_config`. -/
def update_vite_config (fs : FS) (deno_mode : Bool) : MutOut :=
  match find_first fs VITE_CONFIG_CANDIDATES with
  | none => ⟨fs, [],
      ⟨false, [], [lc "No vite.config file found. Skipped Vite plugin updates."]⟩⟩
  | some name =>
    let original := (readFile fs name).getD []
    let t := viteTransform original deno_mode
    if t.2.1 then
      ⟨writeFile fs name t.1, [(name, t.1)],
       ⟨true, [lc "Updated " ++ name ++ lc " with CSS-TS Vite plugin configuration."],
        t.2.2⟩⟩
    else ⟨fs, [], ⟨false, [], t.2.2⟩⟩

/-! ## Package-manager detection and install -/

inductive Pm where
  | pnpm
  | yarn
  | bun
  | npm
deriving DecidableEq

/-- Embedding of `detect_package_manager`. -/
def detect_package_manager (fs : FS) : Pm :=
  if (readFile fs (lc "pnpm-lock.yaml")).isSome then .pnpm
  else if (readFile fs (lc "yarn.lock")).isSome then .yarn
  else if (readFile fs (lc "bun.lockb")).isSome then .bun
  else .npm

/-- Embedding of `run_package_install`.  The external process is an oracle
`runCmd`; the returned pair records the command actually invoked (if any)
and the boolean outcome of the run. -/
def run_package_install (fs : FS) (runCmd : List Str → Bool) :
    Option (List Str) × Bool :=
  if (readFile fs (lc "package.json")).isSome then
    let pm := detect_package_manager fs
    let cmd :=
      match pm with
      | .pnpm => [lc "npx", lc "--yes", lc "jsr", lc "add", lc "--pnpm", lc "@kt-tools/css-ts"]
      | .yarn => [lc "npx", lc "--yes", lc "jsr", lc "add", lc "--yarn", lc "@kt-tools/css-ts"]
      | .bun => [lc "npx", lc "--yes", lc "jsr", lc "add", lc "--bun", lc "@kt-tools/css-ts"]
      | .npm => [lc "npx", lc "--yes", lc "jsr", lc "add", lc "--npm", lc "@kt-tools/css-ts"]
    (some cmd, runCmd cmd)
  else (none, false)

/-! ## Basic lemmas about the dict and directory operations -/

theorem dictSet_id {α : Type} (k : Str) (v : α) :
    ∀ (l : List (Str × α)), dictGet k l = some v → dictSet k v l = l := by
  intro l
  induction l with
  | nil => intro h; simp [dictGet] at h
  | cons hd t ih =>
    intro h
    cases hd with
    | mk k' v' =>
      by_cases hk : k' = k
      · subst hk
        simp [dictGet] at h
        simp [dictSet, h]
      · simp [dictGet, hk] at h
        simp [dictSet, hk, ih h]

theorem readFile_writeFile (fs : FS) (n c n' : Str) :
    readFile (writeFile fs n c) n' = if n = n' then some c else readFile fs n' := by
  unfold readFile writeFile
  by_cases h : n = n'
  · subst h; simp
  · simp [h, dictGet_dictSet_ne n n' c fs h]

theorem find_first_writeFile (fs : FS) (n c : Str)
    (hs : (readFile fs n).isSome) :
    ∀ cands, find_first (writeFile fs n c) cands = find_first fs cands := by
  intro cands
  induction cands with
  | nil => rfl
  | cons a t ih =>
    unfold find_first
    rw [readFile_writeFile]
    by_cases h : n = a
    · subst h; simp [hs]
    · simp [h, ih]

theorem find_first_isSome (fs : FS) :
    ∀ cands name, find_first fs cands = some name → (readFile fs name).isSome := by
  intro cands
  induction cands with
  | nil => intro name h; simp [find_first] at h
  | cons a t ih =>
    intro name h
    unfold find_first at h
    by_cases ha : (readFile fs a).isSome
    · simp [ha] at h; subst h; exact ha
    · simp [ha] at h; exact ih name h

/-! ## Lemmas about the deno import-map mutation -/

theorem insertRequired_preserve (req : List (Str × Str)) :
    ∀ (imp : List (Str × Json)) (k : Str) (v : Json), dictGet k imp = some v →
      dictGet k (insertRequired req imp).1 = some v := by
  induction req with
  | nil => intro imp k v h; simpa [insertRequired] using h
  | cons hd t ih =>
    intro imp k v h
    by_cases hin : (dictGet hd.1 imp).isSome
    · simpa [insertRequired, hin] using ih imp k v h
    · have hne : hd.1 ≠ k := by
        intro he
        rw [he, h] at hin
        simp at hin
      have h2 : dictGet k (dictSet hd.1 (Json.str hd.2) imp) = some v := by
        rw [dictGet_dictSet_ne hd.1 k _ _ hne]; exact h
      simpa [insertRequired, hin] using ih _ k v h2

theorem insertRequired_isSome (req : List (Str × Str)) :
    ∀ (imp : List (Str × Json)) kv, kv ∈ req →
      (dictGet kv.1 (insertRequired req imp).1).isSome := by
  induction req with
  | nil => simp
  | cons hd t ih =>
    intro imp kv hkv
    by_cases hin : (dictGet hd.1 imp).isSome
    · rcases List.mem_cons.mp hkv with rfl | hm
      · obtain ⟨v, hv⟩ := Option.isSome_iff_exists.mp hin
        simp [insertRequired, hin, insertRequired_preserve t imp kv.1 v hv]
      · simpa [insertRequired, hin] using ih imp kv hm
    · rcases List.mem_cons.mp hkv with rfl | hm
      · have h2 : dictGet kv.1 (dictSet kv.1 (Json.str kv.2) imp) = some (Json.str kv.2) := by
          simp
        simp [insertRequired, hin, insertRequired_preserve t _ kv.1 _ h2]
      · simpa [insertRequired, hin] using ih _ kv hm

theorem insertRequired_nochange (req : List (Str × Str)) :
    ∀ (imp : List (Str × Json)), (∀ kv ∈ req, (dictGet kv.1 imp).isSome) →
      insertRequired req imp = (imp, false) := by
  induction req with
  | nil => intro imp _; rfl
  | cons hd t ih =>
    intro imp h
    have h1 : (dictGet hd.1 imp).isSome := h hd (by simp)
    simp [insertRequired, h1]
    exact ih imp (fun kv hkv => h kv (by simp [hkv]))

theorem insertRequired_changed (req : List (Str × Str)) :
    ∀ (imp : List (Str × Json)),
      ((insertRequired req imp).2 = true ↔ ∃ kv ∈ req, dictGet kv.1 imp = none) := by
  induction req with
  | nil => simp [insertRequired]
  | cons hd t ih =>
    intro imp
    by_cases hin : (dictGet hd.1 imp).isSome
    · have hne : ¬ dictGet hd.1 imp = none := by
        intro he; rw [he] at hin; simp at hin
      simp [insertRequired, hin, ih imp, hne]
    · have : dictGet hd.1 imp = none := Option.not_isSome_iff_eq_none.mp hin
      refine ⟨fun _ => ⟨hd, by simp, this⟩, fun _ => ?_⟩
      simp [insertRequired, hin]

theorem insertRequired_frame (req : List (Str × Str)) :
    ∀ (imp : List (Str × Json)) (k : Str), (∀ kv ∈ req, kv.1 ≠ k) →
      dictGet k (insertRequired req imp).1 = dictGet k imp := by
  induction req with
  | nil => intro imp k _; rfl
  | cons hd t ih =>
    intro imp k h
    by_cases hin : (dictGet hd.1 imp).isSome
    · simpa [insertRequired, hin] using ih imp k (fun kv hkv => h kv (by simp [hkv]))
    · have := ih (dictSet hd.1 (Json.str hd.2) imp) k (fun kv hkv => h kv (by simp [hkv]))
      simp [insertRequired, hin, this,
        dictGet_dictSet_ne hd.1 k _ _ (h hd (by simp))]

theorem nmdIsAuto_iff (config : List (Str × Json)) :
    nmdIsAuto config = true ↔
      dictGet (lc "nodeModulesDir") config = some (Json.str (lc "auto")) := by
  unfold nmdIsAuto
  cases h : dictGet (lc "nodeModulesDir") config with
  | none => simp
  | some v =>
    cases v <;> simp_all

theorem denoMutate_imports (descriptor : Option Str) (config : List (Str × Json)) :
    dictGet (lc "imports") (denoMutate descriptor config).1 =
      some (Json.obj
        (insertRequired (requiredImports descriptor)
          (ensure_object config (lc "imports")).1).1) := by
  unfold denoMutate
  by_cases h : nmdIsAuto (dictSet (lc "imports")
      (Json.obj (insertRequired (requiredImports descriptor)
        (ensure_object config (lc "imports")).1).1)
      (ensure_object config (lc "imports")).2) <;>
    simp [h, dictGet_dictSet_ne (lc "nodeModulesDir") (lc "imports") _ _ (by decide)]

theorem denoMutate_nmd (descriptor : Option Str) (config : List (Str × Json)) :
    dictGet (lc "nodeModulesDir") (denoMutate descriptor config).1 =
      some (Json.str (lc "auto")) := by
  unfold denoMutate
  by_cases h : nmdIsAuto (dictSet (lc "imports")
      (Json.obj (insertRequired (requiredImports descriptor)
        (ensure_object config (lc "imports")).1).1)
      (ensure_object config (lc "imports")).2)
  · simpa [h] using (nmdIsAuto_iff _).mp h
  · simp [h]

theorem ensure_object_frame (config : List (Str × Json)) (key k : Str)
    (h : key ≠ k) :
    dictGet k (ensure_object config key).2 = dictGet k config := by
  unfold ensure_object
  cases hg : dictGet key config with
  | none => simp [dictGet_dictSet_ne key k _ _ h]
  | some v => cases v <;> simp [dictGet_dictSet_ne key k _ _ h]

theorem denoMutate_frame (descriptor : Option Str) (config : List (Str × Json))
    (k : Str) (h1 : k ≠ lc "imports") (h2 : k ≠ lc "nodeModulesDir") :
    dictGet k (denoMutate descriptor config).1 = dictGet k config := by
  unfold denoMutate
  have hi := ensure_object_frame config (lc "imports") k (Ne.symm h1)
  by_cases h : nmdIsAuto (dictSet (lc "imports")
      (Json.obj (insertRequired (requiredImports descriptor)
        (ensure_object config (lc "imports")).1).1)
      (ensure_object config (lc "imports")).2) <;>
    simp [h, dictGet_dictSet_ne _ _ _ _ (Ne.symm h1),
      dictGet_dictSet_ne _ _ _ _ (Ne.symm h2), hi]

theorem denoMutate_second (descriptor : Option Str) (config : List (Str × Json)) :
    denoMutate descriptor ((denoMutate descriptor config).1) =
      ((denoMutate descriptor config).1, false) := by
  have himp := denoMutate_imports descriptor config
  have hnmd := denoMutate_nmd descriptor config
  set c1 := (denoMutate descriptor config).1 with hc1
  set imp1 := (insertRequired (requiredImports descriptor)
    (ensure_object config (lc "imports")).1).1 with himp1
  have hens : ensure_object c1 (lc "imports") = (imp1, c1) := by
    unfold ensure_object
    rw [himp]
  have hall : ∀ kv ∈ requiredImports descriptor, (dictGet kv.1 imp1).isSome :=
    fun kv hkv => insertRequired_isSome _ _ kv hkv
  have hins : insertRequired (requiredImports descriptor) imp1 = (imp1, false) :=
    insertRequired_nochange _ _ hall
  have hsetid : dictSet (lc "imports") (Json.obj imp1) c1 = c1 :=
    dictSet_id _ _ c1 himp
  unfold denoMutate
  rw [hens]
  simp only [hins, hsetid]
  have hauto : nmdIsAuto c1 = true := (nmdIsAuto_iff c1).mpr hnmd
  simp [hauto]

/-! ## Running a mutator over the project directory -/

/-- Directory after a fallible mutator; an uncaught exception leaves the
directory as it was at the raise (no write precedes either raise). -/
def fsAfterE (f : FS → Except Unit MutOut) (fs : FS) : FS :=
  match f fs with
  | .ok m => m.fs
  | .error _ => fs

/-- Directory after the (total) vite mutator. -/
def fsAfterM (f : FS → MutOut) (fs : FS) : FS := (f fs).fs

/-- The object `update_deno_config` serializes and writes back, when it
writes at all. -/
def denoWrittenObj (descriptor : Option Str) (fs : FS) :
    Option (List (Str × Json)) :=
  match find_first fs DENO_CONFIG_CANDIDATES with
  | none => none
  | some name =>
    match parse_json_like ((readFile fs name).getD []) with
    | some (Json.obj config) =>
      if (denoMutate descriptor config).2 then some (denoMutate descriptor config).1
      else none
    | _ => none

/-- The object `update_package_json` serializes and writes back, when it
writes at all. -/
def pkgWrittenObj (descriptor : Option Str) (fs : FS) :
    Option (List (Str × Json)) :=
  match readFile fs (lc "package.json") with
  | none => none
  | some original =>
    match loads original with
    | some (Json.obj pkg) =>
      if (dictGet (lc "@kt-tools/css-ts") (ensure_object pkg (lc "dependencies")).1).isSome
      then none
      else some (pkgNewObj descriptor pkg)
    | _ => none

theorem update_deno_config_idem (descriptor : Option Str) (fs : FS)
    (hrt : ∀ d, denoWrittenObj descriptor fs = some d →
      parse_json_like (dumpsFile (Json.obj d)) = some (Json.obj d)) :
    fsAfterE (update_deno_config descriptor)
        (fsAfterE (update_deno_config descriptor) fs) =
      fsAfterE (update_deno_config descriptor) fs := by
  cases hff : find_first fs DENO_CONFIG_CANDIDATES with
  | none => simp [fsAfterE, update_deno_config, hff]
  | some name =>
    cases hp : parse_json_like ((readFile fs name).getD []) with
    | none => simp [fsAfterE, update_deno_config, hff, hp]
    | some v =>
      cases v with
      | null => simp [fsAfterE, update_deno_config, hff, hp]
      | bool b => simp [fsAfterE, update_deno_config, hff, hp]
      | num n => simp [fsAfterE, update_deno_config, hff, hp]
      | str s => simp [fsAfterE, update_deno_config, hff, hp]
      | arr a => simp [fsAfterE, update_deno_config, hff, hp]
      | obj config =>
        by_cases hc : (denoMutate descriptor config).2
        · have hobj : denoWrittenObj descriptor fs =
              some (denoMutate descriptor config).1 := by
            unfold denoWrittenObj
            rw [hff]
            simp [hp, hc]
          have hrt2 := hrt _ hobj
          have hsome : (readFile fs name).isSome := find_first_isSome fs _ name hff
          have h1 : fsAfterE (update_deno_config descriptor) fs =
              writeFile fs name (dumpsFile (Json.obj (denoMutate descriptor config).1)) := by
            unfold fsAfterE update_deno_config
            rw [hff]
            simp [hp, hc]
          rw [h1]
          unfold fsAfterE update_deno_config
          rw [find_first_writeFile fs name _ hsome, hff]
          simp [readFile_writeFile, hrt2, denoMutate_second]
        · have h1 : fsAfterE (update_deno_config descriptor) fs = fs := by
            unfold fsAfterE update_deno_config
            rw [hff]
            simp [hp, hc]
          rw [h1]
          unfold fsAfterE update_deno_config
          rw [hff]
          simp [hp, hc]

theorem update_package_json_idem (descriptor : Option Str) (fs : FS)
    (hrt : ∀ d, pkgWrittenObj descriptor fs = some d →
      loads (dumpsFile (Json.obj d)) = some (Json.obj d)) :
    fsAfterE (update_package_json descriptor)
        (fsAfterE (update_package_json descriptor) fs) =
      fsAfterE (update_package_json descriptor) fs := by
  cases hrd : readFile fs (lc "package.json") with
  | none => simp [fsAfterE, update_package_json, hrd]
  | some original =>
    cases hp : loads original with
    | none => simp [fsAfterE, update_package_json, hrd, hp]
    | some v =>
      cases v with
      | null => simp [fsAfterE, update_package_json, hrd, hp]
      | bool b => simp [fsAfterE, update_package_json, hrd, hp]
      | num n => simp [fsAfterE, update_package_json, hrd, hp]
      | str s => simp [fsAfterE, update_package_json, hrd, hp]
      | arr a => simp [fsAfterE, update_package_json, hrd, hp]
      | obj pkg =>
        by_cases hc :
          (dictGet (lc "@kt-tools/css-ts") (ensure_object pkg (lc "dependencies")).1).isSome
        · simp [fsAfterE, update_package_json, hrd, hp, hc]
        · have hobj : pkgWrittenObj descriptor fs = some (pkgNewObj descriptor pkg) := by
            unfold pkgWrittenObj
            rw [hrd]
            simp [hp, hc]
          have hrt2 := hrt _ hobj
          have h1 : fsAfterE (update_package_json descriptor) fs =
              writeFile fs (lc "package.json")
                (dumpsFile (Json.obj (pkgNewObj descriptor pkg))) := by
            unfold fsAfterE update_package_json
            rw [hrd]
            simp [hp, hc]
          have hens : ensure_object (pkgNewObj descriptor pkg) (lc "dependencies") =
              (pkgNewDeps descriptor pkg, pkgNewObj descriptor pkg) := by
            conv in ensure_object _ _ => unfold ensure_object
            unfold pkgNewObj
            simp
          rw [h1]
          unfold fsAfterE update_package_json
          simp [readFile_writeFile, hrt2, hens, pkgNewDeps]

/-! ## Soundness of the pattern scanner -/

theorem matchToks_lit_cons (l : Str) (rest : List PatTok) (s : Str) (L : Nat)
    (h : matchToks (.lit l :: rest) s = some L) :
    l.isPrefixOf s = true ∧ l.length ≤ L ∧
      matchToks rest (s.drop l.length) = some (L - l.length) := by
  unfold matchToks at h
  by_cases hp : l.isPrefixOf s
  · rw [if_pos hp] at h
    cases hm : matchToks rest (s.drop l.length) with
    | none => rw [hm] at h; simp at h
    | some L' =>
      rw [hm] at h
      simp at h
      refine ⟨hp, by omega, ?_⟩
      congr 1
      omega
  · rw [if_neg hp] at h
    exact absurd h (by simp)

theorem ffAux_shift (p : List PatTok) :
    ∀ (s : Str) (i : Nat),
      ffAux p s i = (ffAux p s 0).map (fun x => (x.1 + i, x.2)) := by
  intro s
  induction s with
  | nil =>
    intro i
    unfold ffAux
    cases matchToks p [] <;> simp
  | cons c t ih =>
    intro i
    unfold ffAux
    cases matchToks p (c :: t) with
    | some L => simp
    | none =>
      rw [ih (i + 1), ih 1]
      cases hf : ffAux p t 0 with
      | none => simp
      | some x => simp; omega

theorem findFirstMatch_sound (p : List PatTok) :
    ∀ (s : Str) (q L : Nat), findFirstMatch p s = some (q, L) →
      matchToks p (s.drop q) = some L ∧
      ∀ r, r < q → matchToks p (s.drop r) = none := by
  intro s
  induction s with
  | nil =>
    intro q L h
    unfold findFirstMatch ffAux at h
    cases hm : matchToks p [] with
    | none => rw [hm] at h; exact absurd h (by simp)
    | some L' =>
      rw [hm] at h
      simp at h
      obtain ⟨rfl, rfl⟩ := h
      exact ⟨by simpa using hm, fun r hr => absurd hr (by omega)⟩
  | cons c t ih =>
    intro q L h
    unfold findFirstMatch ffAux at h
    cases hm : matchToks p (c :: t) with
    | some L' =>
      rw [hm] at h
      simp at h
      obtain ⟨rfl, rfl⟩ := h
      exact ⟨by simpa using hm, fun r hr => absurd hr (by omega)⟩
    | none =>
      rw [hm] at h
      rw [ffAux_shift p t 1] at h
      cases hf : ffAux p t 0 with
      | none => rw [hf] at h; exact absurd h (by simp)
      | some x =>
        rw [hf] at h
        simp at h
        obtain ⟨hq, hL⟩ := h
        obtain ⟨h1, h2⟩ := ih x.1 x.2 hf
        subst hq hL
        refine ⟨by simpa using h1, ?_⟩
        intro r hr
        cases r with
        | zero => simpa using hm
        | succ r' =>
          have : r' < x.1 := by omega
          simpa using h2 r' this

theorem subFirst_eq (p : List PatTok) (repl s : Str) (q L : Nat)
    (h : findFirstMatch p s = some (q, L)) :
    subFirst p repl s = s.take q ++ repl ++ s.drop (q + L) := by
  unfold subFirst
  rw [h]

theorem subFirst_none (p : List PatTok) (repl s : Str)
    (h : findFirstMatch p s = none) : subFirst p repl s = s := by
  unfold subFirst
  rw [h]

/-- A matched pattern whose head is a literal pins down the character of
the subject at the match position. -/
theorem match_head_char (l : Str) (rest : List PatTok) (u : Str) (q L : Nat)
    (hl : l ≠ [])
    (hs : matchToks (.lit l :: rest) (u.drop q) = some L) :
    q < u.length ∧ u[q]? = l[0]? := by
  obtain ⟨hp, _, _⟩ := matchToks_lit_cons l rest (u.drop q) L hs
  have hpre : l <+: u.drop q := List.isPrefixOf_iff_prefix.mp hp
  obtain ⟨t, ht⟩ := hpre
  have hlen : l.length ≤ (u.drop q).length := by
    rw [← ht]
    simp
  have hql : q < u.length := by
    rw [List.length_drop] at hlen
    have := List.length_pos.mpr hl
    omega
  refine ⟨hql, ?_⟩
  have h0 : (u.drop q)[0]? = l[0]? := by
    rw [← ht]
    rcases l with _ | ⟨a, l'⟩
    · exact absurd rfl hl
    · simp
  rw [List.getElem?_drop] at h0
  simpa using h0

theorem sveltekit_sub_ne (u : Str) (q L : Nat)
    (h : findFirstMatch sveltekitPat u = some (q, L)) :
    subFirst sveltekitPat sveltekitRepl u ≠ u := by
  have hs := (findFirstMatch_sound _ u q L h).1
  have hhead := match_head_char (lc "sveltekit") _ u q L (by decide) hs
  intro heq
  rw [subFirst_eq _ _ _ _ _ h] at heq
  have hlen : (u.take q).length = q := by
    rw [List.length_take]
    omega
  have h2 : (u.take q ++ sveltekitRepl ++ u.drop (q + L))[q]? = some 'c' := by
    rw [List.append_assoc, List.getElem?_append_right (by omega), hlen]
    simp
    rfl
  rw [heq] at h2
  rw [hhead.2] at h2
  exact absurd h2 (by decide)

/-- C5: for text without the plugin invocation token, plugin registration
tries the three-stage fallback in order: (a) rewrite only the first
zero-argument `sveltekit()` call, prepending the new invocation; (b)
otherwise rewrite only the first `plugins: [` opening, inserting the new
invocation as first element; (c) otherwise leave the text unchanged with a
warning.  The concrete test of the specification is included. -/
theorem c5_register_plugin (u : Str) (hct : containsB ctViteToken u = false) :
    (∀ q L, findFirstMatch sveltekitPat u = some (q, L) →
      registerPlugin u = (u.take q ++ sveltekitRepl ++ u.drop (q + L), true, []) ∧
      (∀ r, r < q → matchToks sveltekitPat (u.drop r) = none)) ∧
    (findFirstMatch sveltekitPat u = none →
      ∀ q L, findFirstMatch pluginsPat u = some (q, L) →
      registerPlugin u = (u.take q ++ pluginsRepl ++ u.drop (q + L), true, []) ∧
      (∀ r, r < q → matchToks pluginsPat (u.drop r) = none)) ∧
    (findFirstMatch sveltekitPat u = none →
      findFirstMatch pluginsPat u = none →
      registerPlugin u = (u, false,
        [lc "Could not find a plugins array in vite.config. Add ct.vite() manually."])) ∧
    registerPlugin (lc "plugins: [someOtherPlugin()]") =
      (lc "plugins: [ct.vite(), someOtherPlugin()]", true, []) := by
  refine ⟨?_, ?_, ?_, by decide⟩
  · intro q L h
    refine ⟨?_, (findFirstMatch_sound _ u q L h).2⟩
    unfold registerPlugin
    rw [hct]
    simp only [Bool.false_eq_true, if_false]
    rw [if_pos (sveltekit_sub_ne u q L h)]
    rw [subFirst_eq _ _ _ _ _ h]
  · intro hn q L h
    refine ⟨?_, (findFirstMatch_sound _ u q L h).2⟩
    unfold registerPlugin
    rw [hct]
    simp only [Bool.false_eq_true, if_false]
    rw [subFirst_none _ _ _ hn]
    simp only [ne_eq, not_true_eq_false, if_false]
    rw [if_pos (by simp [h])]
    rw [subFirst_eq _ _ _ _ _ h]
  · intro hn1 hn2
    unfold registerPlugin
    rw [hct]
    simp only [Bool.false_eq_true, if_false]
    rw [subFirst_none _ _ _ hn1]
    simp only [ne_eq, not_true_eq_false, if_false]
    rw [if_neg (by simp [hn2])]

/-- Witness for C5 at a concrete config text. -/
theorem c5_register_plugin_witness :
    registerPlugin (lc "x sveltekit ()") = (lc "x ct.vite(), sveltekit()", true, []) := by
  have h := ((c5_register_plugin (lc "x sveltekit ()") (by decide)).1 2 12 (by decide)).1
  exact h.trans (by decide)

/-! ## Soundness of the import-line scanner -/

theorem lastNl_lt : ∀ (l : Str) (i : Nat), lastNl l = some i → i < l.length := by
  intro l
  induction l with
  | nil => intro i h; simp [lastNl] at h
  | cons c t ih =>
    intro i h
    unfold lastNl at h
    cases hl : lastNl t with
    | some j =>
      rw [hl] at h
      simp at h
      have := ih j hl
      simp
      omega
    | none =>
      rw [hl] at h
      by_cases hc : c = '\n'
      · simp [hc] at h
        simp
        omega
      · simp [hc] at h

theorem endFromWs_le (s : Str) (k e : Nat) (h : endFromWs s k = some e) :
    e ≤ s.length := by
  unfold endFromWs at h
  set run := (s.drop k).takeWhile isPySpace with hrun
  have hrl : run.length ≤ (s.drop k).length :=
    (List.takeWhile_prefix _).length_le
  rw [List.length_drop] at hrl
  by_cases hb : k + run.length = s.length
  · rw [if_pos hb] at h
    simp at h
    omega
  · rw [if_neg hb] at h
    cases hl : lastNl run with
    | none => rw [hl] at h; simp at h
    | some i =>
      rw [hl] at h
      simp at h
      have := lastNl_lt run i hl
      omega

theorem importMatchAt_le (s : Str) (L : Nat) (h : importMatchAt s = some L) :
    L ≤ s.length := by
  unfold importMatchAt at h
  by_cases hp : importKw.isPrefixOf s
  · rw [if_pos hp] at h
    split at h
    · exact endFromWs_le _ _ _ h
    · exact endFromWs_le _ _ _ h
  · rw [if_neg hp] at h
    exact absurd h (by simp)

theorem importMatchAt_kw (s : Str) (L : Nat) (h : importMatchAt s = some L) :
    importKw.isPrefixOf s = true := by
  unfold importMatchAt at h
  by_cases hp : importKw.isPrefixOf s
  · exact hp
  · rw [if_neg hp] at h
    exact absurd h (by simp)

theorem imAux_sound :
    ∀ (fuel : Nat) (full : Str) (i : Nat) (anch : Bool),
      (anch = true → i = 0 ∨ full[i-1]? = some '\n') →
      ∀ b L, (b, L) ∈ imAux fuel (full.drop i) i anch →
        importMatchAt (full.drop b) = some L ∧
        (b = 0 ∨ full[b-1]? = some '\n') ∧
        importKw.isPrefixOf (full.drop b) = true := by
  intro fuel
  induction fuel with
  | zero =>
    intro full i anch _ b L h
    simp [imAux] at h
  | succ fuel ih =>
    intro full i anch hanch b L hmem
    unfold imAux at hmem
    have hskip : ∀ (h2 : (b, L) ∈ (match full.drop i with
        | [] => ([] : List (Nat × Nat))
        | c :: t => imAux fuel t (i + 1) (decide (c = '\n')))),
        importMatchAt (full.drop b) = some L ∧
        (b = 0 ∨ full[b-1]? = some '\n') ∧
        importKw.isPrefixOf (full.drop b) = true := by
      intro h2
      cases hd : full.drop i with
      | nil =>
        rw [hd] at h2
        simp at h2
      | cons c t =>
        rw [hd] at h2
        have ht : full.drop (i + 1) = t := by
          rw [← List.tail_drop, hd]
          rfl
        refine ih full (i + 1) _ ?_ b L (by rw [ht]; exact h2)
        intro hdec
        rw [decide_eq_true_eq] at hdec
        right
        have hc : full[i]? = some c := by
          have h0 : (full.drop i)[0]? = some c := by rw [hd]; simp
          rw [List.getElem?_drop] at h0
          simpa using h0
        simpa [hdec] using hc
    cases anch with
    | false => exact hskip hmem
    | true =>
      cases hm : importMatchAt (full.drop i) with
      | none =>
        rw [hm] at hmem
        exact hskip hmem
      | some L' =>
        rw [hm] at hmem
        rcases List.mem_cons.mp hmem with heq | hmem2
        · injection heq with h1 h2
          subst h1
          subst h2
          exact ⟨hm, hanch rfl, importMatchAt_kw _ _ hm⟩
        · have hL2 : L' ≤ (full.drop i).length := importMatchAt_le _ _ hm
          rw [List.drop_drop] at hmem2
          refine ih full (i + L') _ ?_ b L hmem2
          intro hdec
          rw [decide_eq_true_eq] at hdec
          right
          have hL2pos : 1 ≤ L' := by
            by_contra hz
            push_neg at hz
            interval_cases L'
            simp at hdec
          have hlen : ((full.drop i).take L').length = L' := by
            rw [List.length_take]
            omega
          rw [List.getLast?_eq_getElem?, hlen] at hdec
          rw [List.getElem?_take, if_pos (show L' - 1 < L' by omega)] at hdec
          rw [List.getElem?_drop] at hdec
          have harith : i + (L' - 1) = i + L' - 1 := by omega
          rw [harith] at hdec
          exact hdec

/-- C6: for config text without the plugin's module specifier,
`insert_import` prepends the import line when no line matches the import
pattern, and otherwise splices `"\n" + line` exactly at the end of the
last match, whose start lies at a line start and carries the `import`
keyword, leaving all other text unchanged. -/
theorem c6_insert_import (s : Str) (hnm : containsB cssTsMarker s = false) :
    (importMatches s = [] → insert_import s importLine = importLine ++ '\n' :: s) ∧
    (∀ b L, (importMatches s).getLast? = some (b, L) →
      insert_import s importLine =
        s.take (b + L) ++ '\n' :: (importLine ++ s.drop (b + L)) ∧
      importKw.isPrefixOf (s.drop b) = true ∧
      (b = 0 ∨ s[b-1]? = some '\n') ∧
      s.take (b + L) ++ s.drop (b + L) = s) := by
  constructor
  · intro h
    unfold insert_import
    rw [h]
    rfl
  · intro b L h
    have hmem : (b, L) ∈ importMatches s := by
      obtain ⟨hne, heq⟩ := List.mem_getLast?_eq_getLast (l := importMatches s) h
      rw [heq]
      exact List.getLast_mem hne
    have hinv := imAux_sound (s.length + 1) s 0 true (fun _ => Or.inl rfl) b L
      (by simpa [importMatches] using hmem)
    refine ⟨?_, hinv.2.2, hinv.2.1, List.take_append_drop _ _⟩
    unfold insert_import
    rw [h]

/-- Witness for C6: prepending with no import lines, and insertion after
the last import line. -/
theorem c6_insert_import_witness :
    insert_import (lc "const a = 1;") importLine =
      importLine ++ '\n' :: lc "const a = 1;" ∧
    insert_import (lc "import a;\nconst b = 2;") importLine =
      lc "import a;" ++ '\n' :: (importLine ++ lc "\nconst b = 2;") := by
  constructor
  · exact (c6_insert_import (lc "const a = 1;") (by decide)).1 (by decide)
  · have h := ((c6_insert_import (lc "import a;\nconst b = 2;") (by decide)).2 0 9
      (by decide)).1
    exact h.trans (by decide)

/-- C2 counterexample: an existing `deno.json` whose text parses (after
comment stripping) to a JSON value that is not an object makes
`update_deno_config` raise (the uncaught `AttributeError` from
`ensure_object`, modelled as `.error ()`), contradicting the claim that it
never raises on such files. -/
theorem c2_counterexample :
    update_deno_config none [(lc "deno.json", lc "[]")] = Except.error () := by
  rfl

/-- C2 (amended): for an existing Deno config file, a text that fails
strict-JSON parsing after comment stripping yields a warning and an
untouched directory; a text parsing to an object never raises (and an
`imports` member object always exists afterwards); but a text parsing to
a non-object value raises. -/
theorem c2_update_deno_config_errors (descriptor : Option Str) (fs : FS)
    (name content : Str)
    (hff : find_first fs DENO_CONFIG_CANDIDATES = some name)
    (hrd : readFile fs name = some content) :
    (parse_json_like content = none →
      update_deno_config descriptor fs =
        Except.ok ⟨fs, [], ⟨false, [],
          [lc "Failed to parse " ++ name ++ lc ". Skipped import map updates."]⟩⟩) ∧
    (∀ config, parse_json_like content = some (Json.obj config) →
      (∃ m, update_deno_config descriptor fs = Except.ok m) ∧
      (∃ imp, dictGet (lc "imports") (denoMutate descriptor config).1 =
        some (Json.obj imp))) ∧
    (∀ v, parse_json_like content = some v → (∀ d, v ≠ Json.obj d) →
      update_deno_config descriptor fs = Except.error ()) := by
  refine ⟨?_, ?_, ?_⟩
  · intro hp
    unfold update_deno_config
    rw [hff]
    simp [hrd, hp]
  · intro config hp
    constructor
    · cases hu : update_deno_config descriptor fs with
      | ok m => exact ⟨m, rfl⟩
      | error e =>
        exfalso
        unfold update_deno_config at hu
        rw [hff] at hu
        by_cases hc : (denoMutate descriptor config).2 <;>
          simp [hrd, hp, hc] at hu
    · exact ⟨_, denoMutate_imports descriptor config⟩
  · intro v hp hne
    unfold update_deno_config
    rw [hff]
    cases v with
    | obj d => exact absurd rfl (hne d)
    | null => simp [hrd, hp]
    | bool b => simp [hrd, hp]
    | num n => simp [hrd, hp]
    | str s2 => simp [hrd, hp]
    | arr a => simp [hrd, hp]

/-- Witness for the amended C2: a malformed file is skipped with a
warning. -/
theorem c2_witness :
    update_deno_config none [(lc "deno.json", lc "\x7bbroken")] =
      Except.ok ⟨[(lc "deno.json", lc "\x7bbroken")], [], ⟨false, [],
        [lc "Failed to parse " ++ lc "deno.json" ++ lc ". Skipped import map updates."]⟩⟩ :=
  (c2_update_deno_config_errors none [(lc "deno.json", lc "\x7bbroken")]
    (lc "deno.json") (lc "\x7bbroken") rfl rfl).1 rfl

/-- C4: for a Deno config parsing to an object, the mutated object holds
all five required import entries, never overwrites an existing entry,
forces `nodeModulesDir = "auto"`, its `changed` flag holds exactly when
some entry or the `nodeModulesDir` field actually changed, and the file is
rewritten exactly when that flag is set. -/
theorem c4_update_deno_config_spec (descriptor : Option Str) (fs : FS)
    (name content : Str) (config : List (Str × Json))
    (hff : find_first fs DENO_CONFIG_CANDIDATES = some name)
    (hrd : readFile fs name = some content)
    (hp : parse_json_like content = some (Json.obj config)) :
    (∃ imp, dictGet (lc "imports") (denoMutate descriptor config).1 =
        some (Json.obj imp) ∧
      (∀ kv ∈ requiredImports descriptor, (dictGet kv.1 imp).isSome) ∧
      (∀ k v, dictGet k (ensure_object config (lc "imports")).1 = some v →
        dictGet k imp = some v)) ∧
    dictGet (lc "nodeModulesDir") (denoMutate descriptor config).1 =
      some (Json.str (lc "auto")) ∧
    ((denoMutate descriptor config).2 = true ↔
      (∃ kv ∈ requiredImports descriptor,
        dictGet kv.1 (ensure_object config (lc "imports")).1 = none) ∨
      dictGet (lc "nodeModulesDir") config ≠ some (Json.str (lc "auto"))) ∧
    ((denoMutate descriptor config).2 = true →
      update_deno_config descriptor fs = Except.ok
        ⟨writeFile fs name (dumpsFile (Json.obj (denoMutate descriptor config).1)),
         [(name, dumpsFile (Json.obj (denoMutate descriptor config).1))],
         ⟨true,
          [lc "Updated " ++ name ++ lc " with import map entries and nodeModulesDir."],
          if (lc ".jsonc").isSuffixOf name then
            [lc "Rewrote " ++ name ++ lc " as JSON (comments removed)."]
          else []⟩⟩) ∧
    ((denoMutate descriptor config).2 = false →
      update_deno_config descriptor fs =
        Except.ok ⟨fs, [], ⟨false, [], []⟩⟩) := by
  have hnmdpos : dictGet (lc "nodeModulesDir")
      (dictSet (lc "imports")
        (Json.obj (insertRequired (requiredImports descriptor)
          (ensure_object config (lc "imports")).1).1)
        (ensure_object config (lc "imports")).2) =
      dictGet (lc "nodeModulesDir") config := by
    rw [dictGet_dictSet_ne _ _ _ _ (by decide)]
    exact ensure_object_frame config _ _ (by decide)
  refine ⟨?_, denoMutate_nmd descriptor config, ?_, ?_, ?_⟩
  · refine ⟨_, denoMutate_imports descriptor config,
      fun kv hkv => insertRequired_isSome _ _ kv hkv,
      fun k v hv => insertRequired_preserve _ _ k v hv⟩
  · unfold denoMutate
    by_cases h : nmdIsAuto (dictSet (lc "imports")
        (Json.obj (insertRequired (requiredImports descriptor)
          (ensure_object config (lc "imports")).1).1)
        (ensure_object config (lc "imports")).2)
    · have hauto : dictGet (lc "nodeModulesDir") config = some (Json.str (lc "auto")) := by
        rw [← hnmdpos]
        exact (nmdIsAuto_iff _).mp h
      simp only [h, if_true]
      rw [insertRequired_changed]
      simp [hauto]
    · have hnotauto : ¬ dictGet (lc "nodeModulesDir") config = some (Json.str (lc "auto")) := by
        intro hcon
        exact h ((nmdIsAuto_iff _).mpr (hnmdpos ▸ hcon))
      simp [h, hnotauto]
  · intro hc
    unfold update_deno_config
    rw [hff]
    simp [hrd, hp, hc]
  · intro hc
    unfold update_deno_config
    rw [hff]
    simp [hrd, hp, hc]

/-- Witness for C4 on a concrete empty Deno config. -/
theorem c4_witness :
    dictGet (lc "nodeModulesDir") (denoMutate none []).1 =
      some (Json.str (lc "auto")) ∧
    (denoMutate none []).2 = true :=
  ⟨(c4_update_deno_config_spec none [(lc "deno.json", lc "\x7b\x7d")]
      (lc "deno.json") (lc "\x7b\x7d") [] rfl rfl rfl).2.1,
   ((c4_update_deno_config_spec none [(lc "deno.json", lc "\x7b\x7d")]
      (lc "deno.json") (lc "\x7b\x7d") [] rfl rfl rfl).2.2.1).mpr
     (Or.inl ⟨(lc "@kt-tools/css-ts", read_css_ts_specifier none), by decide, rfl⟩)⟩

/-- C7: `read_css_ts_specifier` is total over every state of the tool's
version descriptor: with an existing, object-parsing descriptor holding a
non-empty string `version` it returns the versioned self-reference; in
every other case (missing file, unparsable text, non-object document,
missing, empty or non-string `version`) it returns the fixed unversioned
fallback. -/
theorem c7_read_css_ts_specifier_spec :
    (read_css_ts_specifier none = lc "npm:@jsr/kt-tools__css-ts") ∧
    (∀ t, loads t = none →
      read_css_ts_specifier (some t) = lc "npm:@jsr/kt-tools__css-ts") ∧
    (∀ t d v, loads t = some (Json.obj d) →
      dictGet (lc "version") d = some (Json.str v) → v ≠ [] →
      read_css_ts_specifier (some t) = lc "npm:@jsr/kt-tools__css-ts@^" ++ v) ∧
    (∀ t d, loads t = some (Json.obj d) →
      dictGet (lc "version") d = some (Json.str []) →
      read_css_ts_specifier (some t) = lc "npm:@jsr/kt-tools__css-ts") ∧
    (∀ t d, loads t = some (Json.obj d) →
      (∀ v, dictGet (lc "version") d ≠ some (Json.str v)) →
      read_css_ts_specifier (some t) = lc "npm:@jsr/kt-tools__css-ts") ∧
    (∀ t v, loads t = some v → (∀ d, v ≠ Json.obj d) →
      read_css_ts_specifier (some t) = lc "npm:@jsr/kt-tools__css-ts") := by
  refine ⟨rfl, ?_, ?_, ?_, ?_, ?_⟩
  · intro t h
    unfold read_css_ts_specifier
    simp [h]
  · intro t d v hl hv hne
    unfold read_css_ts_specifier
    simp [hl, hv, hne]
  · intro t d hl hv
    unfold read_css_ts_specifier
    simp [hl, hv]
  · intro t d hl hv
    unfold read_css_ts_specifier
    cases hg : dictGet (lc "version") d with
    | none => simp [hl, hg]
    | some w =>
      cases w with
      | str v2 => exact absurd hg (hv v2)
      | null => simp [hl, hg]
      | bool b => simp [hl, hg]
      | num n => simp [hl, hg]
      | arr a => simp [hl, hg]
      | obj o => simp [hl, hg]
  · intro t v hl hne
    unfold read_css_ts_specifier
    cases v with
    | obj d => exact absurd rfl (hne d)
    | null => simp [hl]
    | bool b => simp [hl]
    | num n => simp [hl]
    | str s2 => simp [hl]
    | arr a => simp [hl]

/-- Witness for C7 on concrete descriptors. -/
theorem c7_witness :
    read_css_ts_specifier (some (lc "\x7b\"version\": \"1.2.3\"\x7d")) =
      lc "npm:@jsr/kt-tools__css-ts@^" ++ lc "1.2.3" ∧
    read_css_ts_specifier (some (lc "not json")) = lc "npm:@jsr/kt-tools__css-ts" :=
  ⟨c7_read_css_ts_specifier_spec.2.2.1 _ [(lc "version", Json.str (lc "1.2.3"))]
      (lc "1.2.3") rfl rfl (by decide),
   c7_read_css_ts_specifier_spec.2.1 _ rfl⟩

/-- C8: each mutator's result satisfies the MutationResult invariant:
`changed = true` implies a note was appended and a write was performed,
and `changed = false` implies no write happened (directory unchanged). -/
theorem c8_mutation_result_invariant (descriptor : Option Str) (fs : FS)
    (mode : Bool) :
    (∀ m, update_deno_config descriptor fs = Except.ok m →
      (m.result.changed = true → m.result.notes ≠ [] ∧ m.writes ≠ []) ∧
      (m.result.changed = false → m.writes = [] ∧ m.fs = fs)) ∧
    (∀ m, update_package_json descriptor fs = Except.ok m →
      (m.result.changed = true → m.result.notes ≠ [] ∧ m.writes ≠ []) ∧
      (m.result.changed = false → m.writes = [] ∧ m.fs = fs)) ∧
    ((update_vite_config fs mode).result.changed = true →
      (update_vite_config fs mode).result.notes ≠ [] ∧
      (update_vite_config fs mode).writes ≠ []) ∧
    ((update_vite_config fs mode).result.changed = false →
      (update_vite_config fs mode).writes = [] ∧
      (update_vite_config fs mode).fs = fs) := by
  refine ⟨?_, ?_, ?_, ?_⟩
  · intro m hm
    cases hff : find_first fs DENO_CONFIG_CANDIDATES with
    | none =>
      unfold update_deno_config at hm
      rw [hff] at hm
      simp at hm
      subst hm
      simp
    | some name =>
      unfold update_deno_config at hm
      rw [hff] at hm
      cases hp : parse_json_like ((readFile fs name).getD []) with
      | none =>
        simp [hp] at hm
        subst hm
        simp
      | some v =>
        cases v with
        | obj config =>
          by_cases hc : (denoMutate descriptor config).2 <;>
            simp [hp, hc] at hm <;> subst hm <;> simp
        | null => simp [hp] at hm
        | bool b => simp [hp] at hm
        | num n => simp [hp] at hm
        | str s2 => simp [hp] at hm
        | arr a => simp [hp] at hm
  · intro m hm
    cases hrd : readFile fs (lc "package.json") with
    | none =>
      unfold update_package_json at hm
      rw [hrd] at hm
      simp at hm
      subst hm
      simp
    | some original =>
      unfold update_package_json at hm
      rw [hrd] at hm
      cases hp : loads original with
      | none =>
        simp [hp] at hm
        subst hm
        simp
      | some v =>
        cases v with
        | obj pkg =>
          by_cases hc : (dictGet (lc "@kt-tools/css-ts")
              (ensure_object pkg (lc "dependencies")).1).isSome <;>
            simp [hp, hc] at hm <;> subst hm <;> simp
        | null => simp [hp] at hm
        | bool b => simp [hp] at hm
        | num n => simp [hp] at hm
        | str s2 => simp [hp] at hm
        | arr a => simp [hp] at hm
  · cases hff : find_first fs VITE_CONFIG_CANDIDATES with
    | none => simp [update_vite_config, hff]
    | some name =>
      by_cases ht : (viteTransform ((readFile fs name).getD []) mode).2.1 <;>
        simp [update_vite_config, hff, ht]
  · cases hff : find_first fs VITE_CONFIG_CANDIDATES with
    | none => simp [update_vite_config, hff]
    | some name =>
      by_cases ht : (viteTransform ((readFile fs name).getD []) mode).2.1 <;>
        simp [update_vite_config, hff, ht]

/-- Witness for C8 on a concrete project directory. -/
theorem c8_witness :
    (update_vite_config [(lc "vite.config.ts", lc "plugins: [x()]")] false).writes ≠ [] ∧
    (update_vite_config [(lc "vite.config.ts", lc "ct.vite() and @kt-tools/css-ts")] false).writes = [] ∧
    (∀ m, update_deno_config none [(lc "deno.json", lc "\x7b\x7d")] = Except.ok m →
      m.result.changed = true → m.result.notes ≠ []) := by
  refine ⟨?_, ?_, ?_⟩
  · exact ((c8_mutation_result_invariant none
      [(lc "vite.config.ts", lc "plugins: [x()]")] false).2.2.1 (by decide)).2
  · exact ((c8_mutation_result_invariant none
      [(lc "vite.config.ts", lc "ct.vite() and @kt-tools/css-ts")] false).2.2.2
      (by decide)).1
  · intro m hm hc
    exact (((c8_mutation_result_invariant none
      [(lc "deno.json", lc "\x7b\x7d")] false).1 m hm).1 hc).1

/-- C9: the deno mutation preserves every top-level key other than
`imports` and `nodeModulesDir`; the package mutation preserves every
top-level key other than `dependencies`, and inside an existing
`dependencies` object every key other than the target dependency. -/
theorem c9_frame (descriptor : Option Str) :
    (∀ config k, k ≠ lc "imports" → k ≠ lc "nodeModulesDir" →
      dictGet k (denoMutate descriptor config).1 = dictGet k config) ∧
    (∀ pkg k, k ≠ lc "dependencies" →
      dictGet k (pkgNewObj descriptor pkg) = dictGet k pkg) ∧
    (∀ pkg dp k, dictGet (lc "dependencies") pkg = some (Json.obj dp) →
      k ≠ lc "@kt-tools/css-ts" →
      dictGet k (pkgNewDeps descriptor pkg) = dictGet k dp) := by
  refine ⟨fun config k h1 h2 => denoMutate_frame descriptor config k h1 h2, ?_, ?_⟩
  · intro pkg k h
    unfold pkgNewObj
    rw [dictGet_dictSet_ne _ _ _ _ (Ne.symm h)]
    exact ensure_object_frame pkg _ k (Ne.symm h)
  · intro pkg dp k hdp h
    unfold pkgNewDeps ensure_object
    rw [hdp]
    exact dictGet_dictSet_ne _ _ _ _ (Ne.symm h)

/-- Witness for C9 on concrete objects. -/
theorem c9_witness :
    dictGet (lc "fmt") (denoMutate none [(lc "fmt", Json.bool true)]).1 =
      dictGet (lc "fmt") [(lc "fmt", Json.bool true)] ∧
    dictGet (lc "name") (pkgNewObj none [(lc "name", Json.str (lc "x"))]) =
      dictGet (lc "name") [(lc "name", Json.str (lc "x"))] ∧
    dictGet (lc "svelte")
        (pkgNewDeps none
          [(lc "dependencies", Json.obj [(lc "svelte", Json.str (lc "1"))])]) =
      dictGet (lc "svelte") [(lc "svelte", Json.str (lc "1"))] :=
  ⟨(c9_frame none).1 _ _ (by decide) (by decide),
   (c9_frame none).2.1 _ _ (by decide),
   (c9_frame none).2.2 _ _ _ rfl (by decide)⟩

/-- C10: without a `package.json` in the project root,
`run_package_install` returns false at once: no package manager is
consulted and no external command is invoked, whatever the command oracle
would answer. -/
theorem c10_run_package_install_skips (fs : FS) (runCmd : List Str → Bool)
    (h : readFile fs (lc "package.json") = none) :
    run_package_install fs runCmd = (none, false) := by
  unfold run_package_install
  simp [h]

/-- Witness for C10 on a Deno-only project directory. -/
theorem c10_witness :
    run_package_install [(lc "deno.json", lc "\x7b\x7d")] (fun _ => true) =
      (none, false) :=
  c10_run_package_install_skips _ _ rfl

/-! ## Substring infrastructure for the vite idempotence analysis -/

theorem mem_of_getElem?_str (l : Str) (n : Nat) (a : Char) (h : l[n]? = some a) :
    a ∈ l := by
  rw [List.getElem?_eq_some] at h
  obtain ⟨hn, rfl⟩ := h
  exact List.getElem_mem hn

theorem containsB_iff (pat : Str) :
    ∀ (s : Str), containsB pat s = true ↔ ∃ a b, s = a ++ pat ++ b := by
  intro s
  induction s with
  | nil =>
    unfold containsB
    rw [List.isPrefixOf_iff_prefix]
    constructor
    · intro h
      obtain ⟨t, ht⟩ := h
      exact ⟨[], t, by simp [← ht]⟩
    · rintro ⟨a, b, hab⟩
      have ha : a = [] := by
        cases a with
        | nil => rfl
        | cons x xs => simp at hab
      subst ha
      simp at hab
      exact ⟨b, by simp [hab.1, hab.2]⟩
  | cons c t ih =>
    unfold containsB
    rw [Bool.or_eq_true, List.isPrefixOf_iff_prefix, ih]
    constructor
    · rintro (⟨r, hr⟩ | ⟨a, b, hab⟩)
      · exact ⟨[], r, by simp [← hr]⟩
      · exact ⟨c :: a, b, by simp [hab]⟩
    · rintro ⟨a, b, hab⟩
      cases a with
      | nil =>
        left
        exact ⟨b, by simpa using hab.symm⟩
      | cons x xs =>
        right
        simp at hab
        exact ⟨xs, b, by simp [hab.2]⟩

theorem containsB_mid (pat a b : Str) : containsB pat (a ++ pat ++ b) = true :=
  (containsB_iff pat _).mpr ⟨a, b, rfl⟩

theorem containsB_mono (pat r a b : Str) (h : containsB pat r = true) :
    containsB pat (a ++ r ++ b) = true := by
  obtain ⟨x, y, hxy⟩ := (containsB_iff pat r).mp h
  exact (containsB_iff pat _).mpr ⟨a ++ x, y ++ b, by simp [hxy]⟩

theorem containsB_of_append_left (x y s : Str)
    (h : containsB (x ++ y) s = true) : containsB x s = true := by
  obtain ⟨a, b, hab⟩ := (containsB_iff _ s).mp h
  exact (containsB_iff x s).mpr ⟨a, y ++ b, by simp [hab]⟩

/-- Literal-whitespace-literal-whitespace-literal pattern shape shared by
four of the source regexes. -/
def pat3 (a b c : Str) : List PatTok :=
  [.lit a, .ws, .lit b, .ws, .lit c]

/-- Literal-whitespace-literal shape of the `defineConfig` regex. -/
def pat2 (a b : Str) : List PatTok := [.lit a, .ws, .lit b]

theorem sveltekitPat_eq : sveltekitPat = pat3 (lc "sveltekit") (lc "(") (lc ")") := rfl

theorem pluginsPat_eq : pluginsPat = pat3 (lc "plugins") (lc ":") (lc "[") := rfl

theorem resolvePat_eq : resolvePat = pat3 (lc "resolve") (lc ":") (lc "\x7b") := rfl

theorem aliasPat_eq : aliasPat = pat3 (lc "alias") (lc ":") (lc "\x7b") := rfl

theorem defineConfigPat_eq : defineConfigPat = pat2 (lc "defineConfig(") (lc "\x7b") := rfl

theorem takeWhile_ws_append (w : Str) (ch : Char) (r : Str)
    (hw : ∀ x ∈ w, isPySpace x = true) (hch : isPySpace ch = false) :
    (w ++ ch :: r).takeWhile isPySpace = w := by
  induction w with
  | nil => simp [List.takeWhile, hch]
  | cons x xs ih =>
    have hx : isPySpace x = true := hw x (by simp)
    simp only [List.cons_append, List.takeWhile, hx, List.append_eq]
    rw [ih (fun y hy => hw y (by simp [hy]))]

theorem isPrefixOf_append_self (l r : Str) : l.isPrefixOf (l ++ r) = true := by
  rw [List.isPrefixOf_iff_prefix]
  exact List.prefix_append l r

theorem matchToks_lit_step (l : Str) (p : List PatTok) (s : Str) (L : Nat) :
    matchToks (.lit l :: p) s = some L ↔
    (l.isPrefixOf s = true ∧
      ∃ L', matchToks p (s.drop l.length) = some L' ∧ L = L' + l.length) := by
  show (if l.isPrefixOf s then
    (matchToks p (s.drop l.length)).map (· + l.length) else none) = some L ↔ _
  by_cases hp : l.isPrefixOf s
  · rw [if_pos hp]
    constructor
    · intro h
      refine ⟨hp, ?_⟩
      cases hm : matchToks p (s.drop l.length) with
      | none => rw [hm] at h; simp at h
      | some L' =>
        rw [hm] at h
        refine ⟨L', rfl, ?_⟩
        have h2 : some (L' + l.length) = some L := h
        injection h2 with h2
        omega
    · rintro ⟨-, L', hL', rfl⟩
      rw [hL']
      rfl
  · rw [if_neg hp]
    constructor
    · intro h
      simp at h
    · rintro ⟨hc, -⟩
      exact absurd hc (by simp [hp])

theorem matchToks_ws_step (p : List PatTok) (s : Str) (L : Nat) :
    matchToks (.ws :: p) s = some L ↔
    ∃ L', matchToks p (s.drop (s.takeWhile isPySpace).length) = some L' ∧
      L = L' + (s.takeWhile isPySpace).length := by
  show (matchToks p (s.drop (s.takeWhile isPySpace).length)).map
    (· + (s.takeWhile isPySpace).length) = some L ↔ _
  constructor
  · intro h
    cases hm : matchToks p (s.drop (s.takeWhile isPySpace).length) with
    | none => rw [hm] at h; simp at h
    | some L' =>
      rw [hm] at h
      refine ⟨L', rfl, ?_⟩
      have h2 : some (L' + (s.takeWhile isPySpace).length) = some L := h
      injection h2 with h2
      omega
  · rintro ⟨L', hL', rfl⟩
    rw [hL']
    rfl

theorem drop_takeWhile_len (f : Char → Bool) : ∀ (l : Str),
    l.drop (l.takeWhile f).length = l.dropWhile f := by
  intro l
  induction l with
  | nil => rfl
  | cons c t ih =>
    by_cases hc : f c <;> simp [List.takeWhile, List.dropWhile, hc, ih]

/-- Characterization of a `pat3` match: the matched region factors as the
three literals separated by whitespace runs, and conversely.  The converse
only inspects the first `L` characters, because each whitespace run is
terminated by the following literal's solid first character. -/
theorem matchToks_pat3_iff (a b c : Str) (s : Str) (L : Nat)
    (ha : a ≠ []) (hb0 : ∃ bh bt, b = bh :: bt ∧ isPySpace bh = false)
    (hc0 : ∃ chh ct, c = chh :: ct ∧ isPySpace chh = false) :
    matchToks (pat3 a b c) s = some L ↔
    ∃ w1 w2, (∀ x ∈ w1, isPySpace x = true) ∧ (∀ x ∈ w2, isPySpace x = true) ∧
      s.take L = a ++ w1 ++ b ++ w2 ++ c ∧ L ≤ s.length ∧
      L = a.length + w1.length + b.length + w2.length + c.length := by
  obtain ⟨bh, bt, hbeq, hbws⟩ := hb0
  obtain ⟨chh, ct, hceq, hcws⟩ := hc0
  constructor
  · intro h
    unfold pat3 at h
    rw [matchToks_lit_step] at h
    obtain ⟨hpa, L1, h, rfl⟩ := h
    rw [matchToks_ws_step] at h
    obtain ⟨L2, h, rfl⟩ := h
    rw [matchToks_lit_step] at h
    obtain ⟨hpb, L3, h, rfl⟩ := h
    rw [matchToks_ws_step] at h
    obtain ⟨L4, h, rfl⟩ := h
    rw [matchToks_lit_step] at h
    obtain ⟨hpc, L5, h, rfl⟩ := h
    have h5 : (some 0 : Option Nat) = some L5 := h
    injection h5 with h5
    subst h5
    set s1 := s.drop a.length with hs1
    set w1 := s1.takeWhile isPySpace with hw1d
    set s2 := s1.drop w1.length with hs2
    set s3 := s2.drop b.length with hs3
    set w2 := s3.takeWhile isPySpace with hw2d
    set s4 := s3.drop w2.length with hs4
    have hsa : s = a ++ s1 := by
      obtain ⟨t, ht⟩ := List.isPrefixOf_iff_prefix.mp hpa
      rw [hs1, ← ht, List.drop_append_of_le_length (Nat.le_refl _)]
      simp
    have hs1w : s1 = w1 ++ s2 := by
      rw [hs2, hw1d, drop_takeWhile_len]
      exact (List.takeWhile_append_dropWhile (p := isPySpace) (l := s1)).symm
    have hs2b : s2 = b ++ s3 := by
      obtain ⟨t, ht⟩ := List.isPrefixOf_iff_prefix.mp hpb
      rw [hs3, ← ht, List.drop_append_of_le_length (Nat.le_refl _)]
      simp
    have hs3w : s3 = w2 ++ s4 := by
      rw [hs4, hw2d, drop_takeWhile_len]
      exact (List.takeWhile_append_dropWhile (p := isPySpace) (l := s3)).symm
    have hs4c : s4 = c ++ s4.drop c.length := by
      obtain ⟨t, ht⟩ := List.isPrefixOf_iff_prefix.mp hpc
      rw [← ht, List.drop_append_of_le_length (Nat.le_refl _)]
      simp
    have hbig : s = (a ++ w1 ++ b ++ w2 ++ c) ++ s4.drop c.length := by
      rw [hsa, hs1w, hs2b, hs3w]
      conv_lhs => rw [hs4c]
      simp
    refine ⟨w1, w2, fun x hx => List.mem_takeWhile_imp (hw1d ▸ hx),
      fun x hx => List.mem_takeWhile_imp (hw2d ▸ hx), ?_, ?_, by omega⟩
    · have hlen : (a ++ w1 ++ b ++ w2 ++ c).length =
          0 + c.length + w2.length + b.length + w1.length + a.length := by
        simp
        omega
      rw [hbig, ← hlen, List.take_left]
    · rw [hbig]
      simp
      omega
  · rintro ⟨w1, w2, hw1, hw2, hshape, hLle, hLlen⟩
    have hs' : s = a ++ (w1 ++ (b ++ (w2 ++ (c ++ s.drop L)))) := by
      conv_lhs => rw [← List.take_append_drop L s]
      rw [hshape]
      simp
    unfold pat3
    rw [matchToks_lit_step]
    constructor
    · rw [hs']
      exact isPrefixOf_append_self a _
    have hd1 : s.drop a.length = w1 ++ (b ++ (w2 ++ (c ++ s.drop L))) := by
      conv_lhs => rw [hs']
      rw [List.drop_append_of_le_length (Nat.le_refl _)]
      simp
    have htw1 : (s.drop a.length).takeWhile isPySpace = w1 := by
      rw [hd1, hbeq]
      have : w1 ++ (bh :: bt ++ (w2 ++ (c ++ s.drop L))) =
          w1 ++ bh :: (bt ++ (w2 ++ (c ++ s.drop L))) := by simp
      rw [this]
      exact takeWhile_ws_append w1 bh _ hw1 hbws
    refine ⟨L - a.length, ?_, by omega⟩
    rw [matchToks_ws_step, htw1]
    have hd2 : (s.drop a.length).drop w1.length = b ++ (w2 ++ (c ++ s.drop L)) := by
      rw [hd1, List.drop_append_of_le_length (Nat.le_refl _)]
      simp
    refine ⟨L - a.length - w1.length, ?_, by omega⟩
    rw [matchToks_lit_step]
    constructor
    · rw [hd2]
      exact isPrefixOf_append_self b _
    have hd3 : ((s.drop a.length).drop w1.length).drop b.length =
        w2 ++ (c ++ s.drop L) := by
      rw [hd2, List.drop_append_of_le_length (Nat.le_refl _)]
      simp
    have htw2 : (((s.drop a.length).drop w1.length).drop b.length).takeWhile isPySpace = w2 := by
      rw [hd3, hceq]
      have : w2 ++ (chh :: ct ++ s.drop L) = w2 ++ chh :: (ct ++ s.drop L) := by simp
      rw [this]
      exact takeWhile_ws_append w2 chh _ hw2 hcws
    refine ⟨L - a.length - w1.length - b.length, ?_, by omega⟩
    rw [matchToks_ws_step, htw2]
    have hd4 : (((s.drop a.length).drop w1.length).drop b.length).drop w2.length =
        c ++ s.drop L := by
      rw [hd3, List.drop_append_of_le_length (Nat.le_refl _)]
      simp
    refine ⟨L - a.length - w1.length - b.length - w2.length, ?_, by omega⟩
    rw [matchToks_lit_step]
    constructor
    · rw [hd4]
      exact isPrefixOf_append_self c _
    have hd5 : ((((s.drop a.length).drop w1.length).drop b.length).drop w2.length).drop c.length =
        s.drop L := by
      rw [hd4, List.drop_append_of_le_length (Nat.le_refl _)]
      simp
    refine ⟨0, ?_, by omega⟩
    rfl

theorem matchToks_pat2_iff (a b : Str) (s : Str) (L : Nat)
    (hb0 : ∃ bh bt, b = bh :: bt ∧ isPySpace bh = false) :
    matchToks (pat2 a b) s = some L ↔
    ∃ w1, (∀ x ∈ w1, isPySpace x = true) ∧
      s.take L = a ++ w1 ++ b ∧ L ≤ s.length ∧
      L = a.length + w1.length + b.length := by
  obtain ⟨bh, bt, hbeq, hbws⟩ := hb0
  constructor
  · intro h
    unfold pat2 at h
    rw [matchToks_lit_step] at h
    obtain ⟨hpa, L1, h, rfl⟩ := h
    rw [matchToks_ws_step] at h
    obtain ⟨L2, h, rfl⟩ := h
    rw [matchToks_lit_step] at h
    obtain ⟨hpb, L3, h, rfl⟩ := h
    have h5 : (some 0 : Option Nat) = some L3 := h
    injection h5 with h5
    subst h5
    set s1 := s.drop a.length with hs1
    set w1 := s1.takeWhile isPySpace with hw1d
    set s2 := s1.drop w1.length with hs2
    have hsa : s = a ++ s1 := by
      obtain ⟨t, ht⟩ := List.isPrefixOf_iff_prefix.mp hpa
      rw [hs1, ← ht, List.drop_append_of_le_length (Nat.le_refl _)]
      simp
    have hs1w : s1 = w1 ++ s2 := by
      rw [hs2, hw1d, drop_takeWhile_len]
      exact (List.takeWhile_append_dropWhile (p := isPySpace) (l := s1)).symm
    have hs2b : s2 = b ++ s2.drop b.length := by
      obtain ⟨t, ht⟩ := List.isPrefixOf_iff_prefix.mp hpb
      rw [← ht, List.drop_append_of_le_length (Nat.le_refl _)]
      simp
    have hbig : s = (a ++ w1 ++ b) ++ s2.drop b.length := by
      rw [hsa, hs1w]
      conv_lhs => rw [hs2b]
      simp
    refine ⟨w1, fun x hx => List.mem_takeWhile_imp (hw1d ▸ hx), ?_, ?_, by omega⟩
    · have hlen : (a ++ w1 ++ b).length = 0 + b.length + w1.length + a.length := by
        simp
        omega
      rw [hbig, ← hlen, List.take_left]
    · rw [hbig]
      simp
      omega
  · rintro ⟨w1, hw1, hshape, hLle, hLlen⟩
    have hs' : s = a ++ (w1 ++ (b ++ s.drop L)) := by
      conv_lhs => rw [← List.take_append_drop L s]
      rw [hshape]
      simp
    unfold pat2
    rw [matchToks_lit_step]
    constructor
    · rw [hs']
      exact isPrefixOf_append_self a _
    have hd1 : s.drop a.length = w1 ++ (b ++ s.drop L) := by
      conv_lhs => rw [hs']
      rw [List.drop_append_of_le_length (Nat.le_refl _)]
      simp
    have htw1 : (s.drop a.length).takeWhile isPySpace = w1 := by
      rw [hd1, hbeq]
      have h2 : w1 ++ (bh :: bt ++ s.drop L) = w1 ++ bh :: (bt ++ s.drop L) := by simp
      rw [h2]
      exact takeWhile_ws_append w1 bh _ hw1 hbws
    refine ⟨L - a.length, ?_, by omega⟩
    rw [matchToks_ws_step, htw1]
    have hd2 : (s.drop a.length).drop w1.length = b ++ s.drop L := by
      rw [hd1, List.drop_append_of_le_length (Nat.le_refl _)]
      simp
    refine ⟨L - a.length - w1.length, ?_, by omega⟩
    rw [matchToks_lit_step]
    constructor
    · rw [hd2]
      exact isPrefixOf_append_self b _
    refine ⟨0, ?_, by omega⟩
    rfl

/-! ## The overlap master lemma -/

/-- Two embedded segments of the same string: if the right segment's
character set excludes a character of `occ` occurring before any copy of
the region's final character, and `occ` never continues the region's
two-character literal head, the segments are disjoint. -/
theorem embedded_disjoint (u X occ Y P R S : Str) (Sset : Char → Bool)
    (h1 : u = X ++ occ ++ Y) (h2 : u = P ++ R ++ S)
    (hchars : ∀ ch ∈ R, Sset ch = true)
    (hc0 : ∃ c0, R[0]? = some c0 ∧
      (∀ δ, δ < occ.length → δ + 1 < occ.length → occ[δ]? = some c0 →
        occ[δ+1]? ≠ R[1]?) ∧
      (occ.length ≥ 1 → occ[occ.length - 1]? = some c0 → Y[0]? ≠ R[1]?))
    (hR2 : 2 ≤ R.length)
    (hblock : ∃ k, k < occ.length ∧
      occ[k]?.map Sset = some false ∧
      (∀ j, j ≤ k → occ[j]? ≠ R[R.length - 1]?)) :
    P.length + R.length ≤ X.length ∨ X.length + occ.length ≤ P.length := by
  obtain ⟨c0, hcR0, hbeta1, hbeta2⟩ := hc0
  obtain ⟨k, hk, hkS, hkend⟩ := hblock
  by_contra hcon
  push_neg at hcon
  obtain ⟨hov1, hov2⟩ := hcon
  set m := X.length with hm
  set q := P.length with hq
  have huX : ∀ t, u[m + t]? = (occ ++ Y)[t]? := by
    intro t
    rw [h1, List.append_assoc, List.getElem?_append_right (by omega)]
    congr 1
    omega
  have huP : ∀ t, u[q + t]? = (R ++ S)[t]? := by
    intro t
    rw [h2, List.append_assoc, List.getElem?_append_right (by omega)]
    congr 1
    omega
  have huOcc : ∀ t, t < occ.length → u[m + t]? = occ[t]? := by
    intro t ht
    rw [huX t, List.getElem?_append_left]
    omega
  have huR : ∀ t, t < R.length → u[q + t]? = R[t]? := by
    intro t ht
    rw [huP t, List.getElem?_append_left]
    omega
  by_cases hqm : q ≤ m
  · -- the region starts at or before the occurrence
    by_cases hkin : m + k < q + R.length
    · -- the blocker position lies inside the region
      have hj : m + k - q < R.length := by omega
      have hchar : R[m + k - q]? = occ[k]? := by
        rw [← huR _ hj, ← huOcc _ hk]
        congr 1
        omega
      cases hck : occ[k]? with
      | none =>
        rw [hck] at hkS
        simp at hkS
      | some ck =>
        rw [hck] at hkS
        simp at hkS
        have hmem : ck ∈ R := mem_of_getElem?_str R _ ck (by rw [hchar, hck])
        have hin := hchars ck hmem
        rw [hkS] at hin
        exact absurd hin (by simp)
    · -- the region ends inside the prefix of `occ` before the blocker
      push_neg at hkin
      have hpos : q + R.length - 1 - m ≤ k := by omega
      have hpos2 : q + R.length - 1 - m < occ.length := by omega
      have hchar : occ[q + R.length - 1 - m]? = R[R.length - 1]? := by
        rw [← huOcc _ hpos2, ← huR _ (by omega)]
        congr 1
        omega
      exact hkend _ hpos hchar
  · -- the region starts strictly inside the occurrence
    push_neg at hqm
    have hδ : q - m < occ.length := by omega
    have hδ1 : 1 ≤ q - m := by omega
    have hocc0 : occ[q - m]? = some c0 := by
      rw [← huOcc _ hδ]
      have : m + (q - m) = q + 0 := by omega
      rw [this, huR 0 (by omega)]
      exact hcR0
    have hnext : (occ ++ Y)[q - m + 1]? = R[1]? := by
      rw [← huX (q - m + 1)]
      have : m + (q - m + 1) = q + 1 := by omega
      rw [this, huR 1 (by omega)]
    by_cases hlast : q - m + 1 < occ.length
    · have := hbeta1 (q - m) hδ hlast hocc0
      rw [List.getElem?_append_left hlast] at hnext
      exact this hnext
    · have heq : q - m = occ.length - 1 := by omega
      have := hbeta2 (by omega) (heq ▸ hocc0)
      rw [List.getElem?_append_right (by omega)] at hnext
      have hidx : q - m + 1 - occ.length = 0 := by omega
      rw [hidx] at hnext
      exact this hnext

theorem findFirstMatch_none_iff (p : List PatTok) :
    ∀ (s : Str), findFirstMatch p s = none ↔
      ∀ r, matchToks p (s.drop r) = none := by
  intro s
  induction s with
  | nil =>
    unfold findFirstMatch ffAux
    cases hm : matchToks p [] with
    | some L =>
      constructor
      · intro h
        exact absurd h (by simp)
      · intro h
        have h0 := h 0
        rw [List.drop_nil, hm] at h0
        exact absurd h0 (by simp)
    | none =>
      constructor
      · intro _ r
        simpa using hm
      · intro _
        rfl
  | cons c t ih =>
    unfold findFirstMatch ffAux
    cases hm : matchToks p (c :: t) with
    | some L =>
      constructor
      · intro h
        exact absurd h (by simp)
      · intro h
        have h0 := h 0
        rw [List.drop_zero, hm] at h0
        exact absurd h0 (by simp)
    | none =>
      rw [ffAux_shift p t 1]
      constructor
      · intro h r
        cases r with
        | zero => simpa using hm
        | succ r' =>
          have ht : findFirstMatch p t = none := by
            unfold findFirstMatch
            cases hf : ffAux p t 0 with
            | none => rfl
            | some x => rw [hf] at h; simp at h
          simpa using (ih.mp ht) r'
      · intro h
        have ht : findFirstMatch p t = none := by
          rw [ih]
          intro r
          simpa using h (r + 1)
        unfold findFirstMatch at ht
        rw [ht]
        rfl

/-- Disjointness of an embedded occurrence from any `pat3` match region,
from decidable facts about the occurrence and the pattern's literals. -/
theorem pat3_region_disjoint (a b c : Str) (u X occ Y : Str) (q L : Nat)
    (S : Char → Bool) (a0 a1 : Char)
    (ha : a[0]? = some a0) (ha1 : a[1]? = some a1)
    (hbne : ∃ bh bt, b = bh :: bt ∧ isPySpace bh = false)
    (hcne : ∃ chh ct, c = chh :: ct ∧ isPySpace chh = false)
    (hSa : ∀ x ∈ a, S x = true) (hSb : ∀ x ∈ b, S x = true)
    (hSc : ∀ x ∈ c, S x = true)
    (hSw : ∀ x, isPySpace x = true → S x = true)
    (h1 : u = X ++ occ ++ Y)
    (hm : matchToks (pat3 a b c) (u.drop q) = some L)
    (hblock : ∃ k, k < occ.length ∧ occ[k]?.map S = some false ∧
      (∀ j, j ≤ k → occ[j]? ≠ c.getLast?))
    (hbeta : ∀ δ, δ < occ.length → δ + 1 < occ.length → occ[δ]? = some a0 →
      occ[δ+1]? ≠ some a1)
    (hlastocc : occ.length ≥ 1 → occ[occ.length - 1]? = some a0 → Y[0]? ≠ some a1) :
    q + L ≤ X.length ∨ X.length + occ.length ≤ q := by
  have hane : a ≠ [] := by
    intro he
    rw [he] at ha
    simp at ha
  rw [matchToks_pat3_iff a b c _ L hane hbne hcne] at hm
  obtain ⟨w1, w2, hw1, hw2, hshape, hLle, hLlen⟩ := hm
  set R := a ++ w1 ++ b ++ w2 ++ c with hR
  have ha0lt : 0 < a.length := by
    rw [List.getElem?_eq_some] at ha
    obtain ⟨h, _⟩ := ha
    omega
  have ha1lt : 1 < a.length := by
    rw [List.getElem?_eq_some] at ha1
    obtain ⟨h, _⟩ := ha1
    omega
  have hRlen : R.length = L := by
    rw [hR]
    simp
    omega
  have hqle : q ≤ u.length := by
    rw [List.length_drop] at hLle
    omega
  have hu2 : u = u.take q ++ R ++ u.drop (q + L) := by
    rw [List.append_assoc]
    conv_lhs => rw [← List.take_append_drop q u]
    congr 1
    conv_lhs => rw [← List.take_append_drop L (u.drop q)]
    rw [hshape, List.drop_drop]
  have htakelen : (u.take q).length = q := by
    rw [List.length_take]
    omega
  have hcne2 : c ≠ [] := by
    obtain ⟨chh, ct, hceq, _⟩ := hcne
    simp [hceq]
  have hR0 : R[0]? = some a0 := by
    rw [hR]
    rw [List.append_assoc, List.append_assoc, List.append_assoc,
      List.getElem?_append_left (by omega)]
    exact ha
  have hR1 : R[1]? = some a1 := by
    rw [hR]
    rw [List.append_assoc, List.append_assoc, List.append_assoc,
      List.getElem?_append_left (by omega)]
    exact ha1
  have hRlast : R[R.length - 1]? = c.getLast? := by
    rw [← List.getLast?_eq_getElem?, hR]
    rw [List.append_assoc, List.append_assoc, List.append_assoc]
    rw [List.getLast?_append, List.getLast?_append, List.getLast?_append,
      List.getLast?_append]
    cases hcl : c.getLast? with
    | none =>
      rw [List.getLast?_eq_none_iff] at hcl
      exact absurd hcl hcne2
    | some x => rfl
  have hchars : ∀ ch ∈ R, S ch = true := by
    intro ch hch
    rw [hR] at hch
    simp only [List.append_assoc, List.mem_append] at hch
    rcases hch with h | h | h | h | h
    · exact hSa ch h
    · exact hSw ch (hw1 ch h)
    · exact hSb ch h
    · exact hSw ch (hw2 ch h)
    · exact hSc ch h
  have hdis := embedded_disjoint u X occ Y (u.take q) R (u.drop (q + L)) S
    h1 hu2 hchars
    ⟨a0, hR0, by
      intro δ h1' h2' h3'
      rw [hR1]
      exact hbeta δ h1' h2' h3', by
      intro hlen hocc
      rw [hR1]
      exact hlastocc hlen hocc⟩
    (by omega)
    (by
      obtain ⟨k, hk, hkS, hkend⟩ := hblock
      exact ⟨k, hk, hkS, by
        intro j hj
        rw [hRlast]
        exact hkend j hj⟩)
  rw [htakelen, hRlen] at hdis
  exact hdis

/-- Disjointness of an embedded occurrence from any `pat2` match region. -/
theorem pat2_region_disjoint (a b : Str) (u X occ Y : Str) (q L : Nat)
    (S : Char → Bool) (a0 a1 : Char)
    (ha : a[0]? = some a0) (ha1 : a[1]? = some a1)
    (hbne : ∃ bh bt, b = bh :: bt ∧ isPySpace bh = false)
    (hSa : ∀ x ∈ a, S x = true) (hSb : ∀ x ∈ b, S x = true)
    (hSw : ∀ x, isPySpace x = true → S x = true)
    (h1 : u = X ++ occ ++ Y)
    (hm : matchToks (pat2 a b) (u.drop q) = some L)
    (hblock : ∃ k, k < occ.length ∧ occ[k]?.map S = some false ∧
      (∀ j, j ≤ k → occ[j]? ≠ b.getLast?))
    (hbeta : ∀ δ, δ < occ.length → δ + 1 < occ.length → occ[δ]? = some a0 →
      occ[δ+1]? ≠ some a1)
    (hlastocc : occ.length ≥ 1 → occ[occ.length - 1]? = some a0 → Y[0]? ≠ some a1) :
    q + L ≤ X.length ∨ X.length + occ.length ≤ q := by
  rw [matchToks_pat2_iff a b _ L hbne] at hm
  obtain ⟨w1, hw1, hshape, hLle, hLlen⟩ := hm
  set R := a ++ w1 ++ b with hR
  have ha0lt : 0 < a.length := by
    rw [List.getElem?_eq_some] at ha
    obtain ⟨h, _⟩ := ha
    omega
  have ha1lt : 1 < a.length := by
    rw [List.getElem?_eq_some] at ha1
    obtain ⟨h, _⟩ := ha1
    omega
  have hRlen : R.length = L := by
    rw [hR]
    simp
    omega
  have hqle : q ≤ u.length := by
    rw [List.length_drop] at hLle
    omega
  have hu2 : u = u.take q ++ R ++ u.drop (q + L) := by
    rw [List.append_assoc]
    conv_lhs => rw [← List.take_append_drop q u]
    congr 1
    conv_lhs => rw [← List.take_append_drop L (u.drop q)]
    rw [hshape, List.drop_drop]
  have htakelen : (u.take q).length = q := by
    rw [List.length_take]
    omega
  have hbne2 : b ≠ [] := by
    obtain ⟨bh, bt, hbeq, _⟩ := hbne
    simp [hbeq]
  have hR0 : R[0]? = some a0 := by
    rw [hR, List.append_assoc, List.getElem?_append_left (by omega)]
    exact ha
  have hR1 : R[1]? = some a1 := by
    rw [hR, List.append_assoc, List.getElem?_append_left (by omega)]
    exact ha1
  have hRlast : R[R.length - 1]? = b.getLast? := by
    rw [← List.getLast?_eq_getElem?, hR]
    rw [List.append_assoc, List.getLast?_append, List.getLast?_append]
    cases hbl : b.getLast? with
    | none =>
      rw [List.getLast?_eq_none_iff] at hbl
      exact absurd hbl hbne2
    | some x => rfl
  have hchars : ∀ ch ∈ R, S ch = true := by
    intro ch hch
    rw [hR] at hch
    simp only [List.append_assoc, List.mem_append] at hch
    rcases hch with h | h | h
    · exact hSa ch h
    · exact hSw ch (hw1 ch h)
    · exact hSb ch h
  have hdis := embedded_disjoint u X occ Y (u.take q) R (u.drop (q + L)) S
    h1 hu2 hchars
    ⟨a0, hR0, by
      intro δ h1' h2' h3'
      rw [hR1]
      exact hbeta δ h1' h2' h3', by
      intro hlen hocc
      rw [hR1]
      exact hlastocc hlen hocc⟩
    (by omega)
    (by
      obtain ⟨k, hk, hkS, hkend⟩ := hblock
      exact ⟨k, hk, hkS, by
        intro j hj
        rw [hRlast]
        exact hkend j hj⟩)
  rw [htakelen, hRlen] at hdis
  exact hdis

/-! ## Survival and non-creation of substrings under the substitutions -/

theorem split3 (u : Str) (q L : Nat) :
    u = u.take q ++ (u.drop q).take L ++ u.drop (q + L) := by
  rw [List.append_assoc]
  conv_lhs => rw [← List.take_append_drop q u]
  congr 1
  conv_lhs => rw [← List.take_append_drop L (u.drop q)]
  rw [List.drop_drop]

/-- An embedded occurrence disjoint from the replaced region survives the
replacement. -/
theorem contains_of_disjoint_sub (u X occ Y repl : Str) (q L : Nat)
    (h1 : u = X ++ occ ++ Y)
    (hd : q + L ≤ X.length ∨ X.length + occ.length ≤ q) :
    containsB occ (u.take q ++ repl ++ u.drop (q + L)) = true := by
  rcases hd with h | h
  · have hdrop : u.drop (q + L) = X.drop (q + L) ++ (occ ++ Y) := by
      rw [h1, List.append_assoc, List.drop_append_of_le_length h]
    rw [hdrop]
    refine (containsB_iff occ _).mpr ⟨u.take q ++ repl ++ X.drop (q + L), Y, ?_⟩
    simp
  · have htake : u.take q = (X ++ occ) ++ Y.take (q - (X.length + occ.length)) := by
      rw [h1, List.take_append_eq_append_take,
        List.take_of_length_le (by simp; omega)]
      simp
    rw [htake]
    refine (containsB_iff occ _).mpr
      ⟨X, Y.take (q - (X.length + occ.length)) ++ repl ++ u.drop (q + L), ?_⟩
    simp

/-- The marker together with its closing quote, as it occurs inside the
inserted import line and inside the alias replacement strings. -/
def occQ : Str := cssTsMarker ++ ['"']

def svChar (c : Char) : Bool := (lc "sveltekit()").contains c || isPySpace c

def plChar (c : Char) : Bool := (lc "plugins:[").contains c || isPySpace c

def alChar (c : Char) : Bool := (lc "alias:\x7b").contains c || isPySpace c

def reChar (c : Char) : Bool := (lc "resolve:\x7b").contains c || isPySpace c

def dcChar (c : Char) : Bool := (lc "defineConfig(\x7b").contains c || isPySpace c

/-- `occQ` survives the sveltekit substitution. -/
theorem occQ_sv_preserved (u : Str) (q L : Nat)
    (hq : containsB occQ u = true)
    (hm : matchToks sveltekitPat (u.drop q) = some L) :
    containsB occQ (u.take q ++ sveltekitRepl ++ u.drop (q + L)) = true := by
  obtain ⟨X, Y, hXY⟩ := (containsB_iff occQ u).mp hq
  apply contains_of_disjoint_sub u X occQ Y sveltekitRepl q L hXY
  rw [sveltekitPat_eq] at hm
  exact pat3_region_disjoint _ _ _ u X occQ Y q L svChar 's' 'v'
    (by decide) (by decide) ⟨'(', [], by decide, by decide⟩
    ⟨')', [], by decide, by decide⟩
    (by decide) (by decide) (by decide) (fun x hx => by simp [svChar, hx])
    hXY hm
    ⟨0, by decide, by decide, by decide⟩
    (by decide)
    (fun _ hocc => absurd hocc (by decide))

/-- `occQ` survives the plugins substitution. -/
theorem occQ_pl_preserved (u : Str) (q L : Nat)
    (hq : containsB occQ u = true)
    (hm : matchToks pluginsPat (u.drop q) = some L) :
    containsB occQ (u.take q ++ pluginsRepl ++ u.drop (q + L)) = true := by
  obtain ⟨X, Y, hXY⟩ := (containsB_iff occQ u).mp hq
  apply contains_of_disjoint_sub u X occQ Y pluginsRepl q L hXY
  rw [pluginsPat_eq] at hm
  exact pat3_region_disjoint _ _ _ u X occQ Y q L plChar 'p' 'l'
    (by decide) (by decide) ⟨':', [], by decide, by decide⟩
    ⟨'[', [], by decide, by decide⟩
    (by decide) (by decide) (by decide) (fun x hx => by simp [plChar, hx])
    hXY hm
    ⟨0, by decide, by decide, by decide⟩
    (by decide)
    (fun _ hocc => absurd hocc (by decide))

/-- `ct.vite` survives the alias substitution. -/
theorem ct_alias_preserved (u : Str) (q L : Nat)
    (hq : containsB ctViteToken u = true)
    (hm : matchToks aliasPat (u.drop q) = some L) :
    containsB ctViteToken (u.take q ++ aliasRepl ++ u.drop (q + L)) = true := by
  obtain ⟨X, Y, hXY⟩ := (containsB_iff ctViteToken u).mp hq
  apply contains_of_disjoint_sub u X ctViteToken Y aliasRepl q L hXY
  rw [aliasPat_eq] at hm
  exact pat3_region_disjoint _ _ _ u X ctViteToken Y q L alChar 'a' 'l'
    (by decide) (by decide) ⟨':', [], by decide, by decide⟩
    ⟨'\x7b', [], by decide, by decide⟩
    (by decide) (by decide) (by decide) (fun x hx => by simp [alChar, hx])
    hXY hm
    ⟨0, by decide, by decide, by decide⟩
    (by decide)
    (fun _ hocc => absurd hocc (by decide))

/-- `ct.vite` survives the resolve substitution. -/
theorem ct_resolve_preserved (u : Str) (q L : Nat)
    (hq : containsB ctViteToken u = true)
    (hm : matchToks resolvePat (u.drop q) = some L) :
    containsB ctViteToken (u.take q ++ resolveRepl ++ u.drop (q + L)) = true := by
  obtain ⟨X, Y, hXY⟩ := (containsB_iff ctViteToken u).mp hq
  apply contains_of_disjoint_sub u X ctViteToken Y resolveRepl q L hXY
  rw [resolvePat_eq] at hm
  exact pat3_region_disjoint _ _ _ u X ctViteToken Y q L reChar 'r' 'e'
    (by decide) (by decide) ⟨':', [], by decide, by decide⟩
    ⟨'\x7b', [], by decide, by decide⟩
    (by decide) (by decide) (by decide) (fun x hx => by simp [reChar, hx])
    hXY hm
    ⟨0, by decide, by decide, by decide⟩
    (by decide)
    (fun _ hocc => absurd hocc (by decide))

/-- `ct.vite` survives the defineConfig insertion (the inserted text goes
at the end of the match region, which is disjoint from the occurrence). -/
theorem ct_defineConfig_preserved (u : Str) (q L : Nat)
    (hq : containsB ctViteToken u = true)
    (hm : matchToks defineConfigPat (u.drop q) = some L) :
    containsB ctViteToken
      (u.take (q + L) ++ ('\n' :: aliasSnippet) ++ u.drop (q + L)) = true := by
  obtain ⟨X, Y, hXY⟩ := (containsB_iff ctViteToken u).mp hq
  have hdis : q + L ≤ X.length ∨ X.length + ctViteToken.length ≤ q := by
    rw [defineConfigPat_eq] at hm
    exact pat2_region_disjoint _ _ u X ctViteToken Y q L dcChar 'd' 'e'
      (by decide) (by decide) ⟨'\x7b', [], by decide, by decide⟩
      (by decide) (by decide) (fun x hx => by simp [dcChar, hx])
      hXY hm
      ⟨0, by decide, by decide, by decide⟩
      (by decide)
      (fun _ hocc => absurd hocc (by decide))
  have hd0 : (q + L) + 0 ≤ X.length ∨ X.length + ctViteToken.length ≤ q + L := by
    omega
  have := contains_of_disjoint_sub u X ctViteToken Y ('\n' :: aliasSnippet)
    (q + L) 0 hXY hd0
  rw [Nat.add_zero] at this
  exact this

/-- Replacing a middle segment by text `R` that cannot host or touch a
`pat3` match does not create one: if the old string had no match, neither
does the new one. -/
theorem no_new_match_pat3 (a b c : Str) (X M Z R : Str)
    (S : Char → Bool) (a0 a1 : Char)
    (ha : a ≠ [])
    (hbne : ∃ bh bt, b = bh :: bt ∧ isPySpace bh = false)
    (hcne : ∃ chh ct, c = chh :: ct ∧ isPySpace chh = false)
    (ha0 : a[0]? = some a0) (ha1 : a[1]? = some a1)
    (hSa : ∀ x ∈ a, S x = true) (hSb : ∀ x ∈ b, S x = true)
    (hSc : ∀ x ∈ c, S x = true)
    (hSw : ∀ x, isPySpace x = true → S x = true)
    (hnone : findFirstMatch (pat3 a b c) (X ++ M ++ Z) = none)
    (hblock : ∃ k, k < R.length ∧ R[k]?.map S = some false ∧
      (∀ j, j ≤ k → R[j]? ≠ c.getLast?))
    (hbeta : ∀ δ, δ < R.length → δ + 1 < R.length → R[δ]? = some a0 →
      R[δ+1]? ≠ some a1)
    (hlast : R.length ≥ 1 → R[R.length - 1]? = some a0 → Z[0]? ≠ some a1) :
    findFirstMatch (pat3 a b c) (X ++ R ++ Z) = none := by
  rw [findFirstMatch_none_iff] at hnone ⊢
  intro r
  cases hm : matchToks (pat3 a b c) ((X ++ R ++ Z).drop r) with
  | none => rfl
  | some L =>
    exfalso
    have hdis := pat3_region_disjoint a b c (X ++ R ++ Z) X R Z r L S a0 a1
      ha0 ha1 hbne hcne hSa hSb hSc hSw rfl hm hblock hbeta hlast
    rcases hdis with hA | hB
    · rw [matchToks_pat3_iff a b c _ L ha hbne hcne] at hm
      obtain ⟨w1, w2, hw1, hw2, hshape, hLle, hLlen⟩ := hm
      have hrX : r ≤ X.length := by omega
      have htX : ((X ++ R ++ Z).drop r).take L = (X.drop r).take L := by
        rw [List.append_assoc, List.drop_append_of_le_length hrX,
          List.take_append_eq_append_take,
          Nat.sub_eq_zero_of_le (by rw [List.length_drop]; omega),
          List.take_zero, List.append_nil]
      have htS : ((X ++ M ++ Z).drop r).take L = (X.drop r).take L := by
        rw [List.append_assoc, List.drop_append_of_le_length hrX,
          List.take_append_eq_append_take,
          Nat.sub_eq_zero_of_le (by rw [List.length_drop]; omega),
          List.take_zero, List.append_nil]
      have hmS : matchToks (pat3 a b c) ((X ++ M ++ Z).drop r) = some L := by
        rw [matchToks_pat3_iff a b c _ L ha hbne hcne]
        refine ⟨w1, w2, hw1, hw2, ?_, ?_, hLlen⟩
        · rw [htS, ← htX, hshape]
        · rw [List.length_drop, List.length_append, List.length_append]
          omega
      rw [hnone r] at hmS
      exact absurd hmS (by simp)
    · have hdropR : (X ++ R ++ Z).drop r = Z.drop (r - (X.length + R.length)) := by
        rw [List.drop_append_eq_append_drop,
          List.drop_eq_nil_of_le (by simp; omega)]
        simp
      have hdropS : (X ++ M ++ Z).drop
          (X.length + M.length + (r - (X.length + R.length)))
          = Z.drop (r - (X.length + R.length)) := by
        rw [List.drop_append_eq_append_drop,
          List.drop_eq_nil_of_le (by simp),
          show X.length + M.length + (r - (X.length + R.length)) -
            (X ++ M).length = r - (X.length + R.length) from by simp]
        rfl
      have hmS : matchToks (pat3 a b c)
          ((X ++ M ++ Z).drop
            (X.length + M.length + (r - (X.length + R.length)))) = some L := by
        rw [hdropS, ← hdropR]
        exact hm
      rw [hnone _] at hmS
      exact absurd hmS (by simp)

theorem sv_none_aliasRepl (u : Str) (q L : Nat)
    (hnone : findFirstMatch sveltekitPat u = none) :
    findFirstMatch sveltekitPat (u.take q ++ aliasRepl ++ u.drop (q + L)) = none := by
  rw [sveltekitPat_eq] at hnone ⊢
  exact no_new_match_pat3 _ _ _ (u.take q) ((u.drop q).take L) (u.drop (q + L))
    aliasRepl svChar 's' 'v'
    (by decide) ⟨'(', [], by decide, by decide⟩ ⟨')', [], by decide, by decide⟩
    (by decide) (by decide) (by decide) (by decide) (by decide)
    (fun x hx => by simp [svChar, hx])
    (by rw [← split3]; exact hnone)
    ⟨0, by decide, by decide, by decide⟩
    (by decide)
    (fun _ hocc => absurd hocc (by decide))

theorem pl_none_aliasRepl (u : Str) (q L : Nat)
    (hnone : findFirstMatch pluginsPat u = none) :
    findFirstMatch pluginsPat (u.take q ++ aliasRepl ++ u.drop (q + L)) = none := by
  rw [pluginsPat_eq] at hnone ⊢
  exact no_new_match_pat3 _ _ _ (u.take q) ((u.drop q).take L) (u.drop (q + L))
    aliasRepl plChar 'p' 'l'
    (by decide) ⟨':', [], by decide, by decide⟩ ⟨'[', [], by decide, by decide⟩
    (by decide) (by decide) (by decide) (by decide) (by decide)
    (fun x hx => by simp [plChar, hx])
    (by rw [← split3]; exact hnone)
    ⟨0, by decide, by decide, by decide⟩
    (by decide)
    (fun _ hocc => absurd hocc (by decide))

theorem sv_none_resolveRepl (u : Str) (q L : Nat)
    (hnone : findFirstMatch sveltekitPat u = none) :
    findFirstMatch sveltekitPat (u.take q ++ resolveRepl ++ u.drop (q + L)) = none := by
  rw [sveltekitPat_eq] at hnone ⊢
  exact no_new_match_pat3 _ _ _ (u.take q) ((u.drop q).take L) (u.drop (q + L))
    resolveRepl svChar 's' 'v'
    (by decide) ⟨'(', [], by decide, by decide⟩ ⟨')', [], by decide, by decide⟩
    (by decide) (by decide) (by decide) (by decide) (by decide)
    (fun x hx => by simp [svChar, hx])
    (by rw [← split3]; exact hnone)
    ⟨0, by decide, by decide, by decide⟩
    (by decide)
    (fun _ hocc => absurd hocc (by decide))

theorem pl_none_resolveRepl (u : Str) (q L : Nat)
    (hnone : findFirstMatch pluginsPat u = none) :
    findFirstMatch pluginsPat (u.take q ++ resolveRepl ++ u.drop (q + L)) = none := by
  rw [pluginsPat_eq] at hnone ⊢
  exact no_new_match_pat3 _ _ _ (u.take q) ((u.drop q).take L) (u.drop (q + L))
    resolveRepl plChar 'p' 'l'
    (by decide) ⟨':', [], by decide, by decide⟩ ⟨'[', [], by decide, by decide⟩
    (by decide) (by decide) (by decide) (by decide) (by decide)
    (fun x hx => by simp [plChar, hx])
    (by rw [← split3]; exact hnone)
    ⟨0, by decide, by decide, by decide⟩
    (by decide)
    (fun _ hocc => absurd hocc (by decide))

theorem sv_none_snippet (u : Str) (p : Nat)
    (hnone : findFirstMatch sveltekitPat u = none) :
    findFirstMatch sveltekitPat
      (u.take p ++ ('\n' :: aliasSnippet) ++ u.drop p) = none := by
  rw [sveltekitPat_eq] at hnone ⊢
  have hu : u = u.take p ++ (u.drop p).take 0 ++ u.drop p := by
    have h := split3 u p 0
    rwa [Nat.add_zero] at h
  exact no_new_match_pat3 _ _ _ (u.take p) ((u.drop p).take 0) (u.drop p)
    ('\n' :: aliasSnippet) svChar 's' 'v'
    (by decide) ⟨'(', [], by decide, by decide⟩ ⟨')', [], by decide, by decide⟩
    (by decide) (by decide) (by decide) (by decide) (by decide)
    (fun x hx => by simp [svChar, hx])
    (by rw [← hu]; exact hnone)
    ⟨3, by decide, by decide, by decide⟩
    (by decide)
    (fun _ hocc => absurd hocc (by decide))

theorem pl_none_snippet (u : Str) (p : Nat)
    (hnone : findFirstMatch pluginsPat u = none) :
    findFirstMatch pluginsPat
      (u.take p ++ ('\n' :: aliasSnippet) ++ u.drop p) = none := by
  rw [pluginsPat_eq] at hnone ⊢
  have hu : u = u.take p ++ (u.drop p).take 0 ++ u.drop p := by
    have h := split3 u p 0
    rwa [Nat.add_zero] at h
  exact no_new_match_pat3 _ _ _ (u.take p) ((u.drop p).take 0) (u.drop p)
    ('\n' :: aliasSnippet) plChar 'p' 'l'
    (by decide) ⟨':', [], by decide, by decide⟩ ⟨'[', [], by decide, by decide⟩
    (by decide) (by decide) (by decide) (by decide) (by decide)
    (fun x hx => by simp [plChar, hx])
    (by rw [← hu]; exact hnone)
    ⟨3, by decide, by decide, by decide⟩
    (by decide)
    (fun _ hocc => absurd hocc (by decide))

/-- The import line inserted by `insert_import` carries an `occQ`
occurrence, wherever the line lands. -/
theorem insert_import_occQ (s : Str) :
    ∃ X Y, insert_import s importLine = X ++ occQ ++ Y := by
  have himp : importLine = lc "import ct from \"" ++ occQ ++ lc ";" := by decide
  unfold insert_import
  cases h : (importMatches s).getLast? with
  | none =>
    refine ⟨lc "import ct from \"", lc ";" ++ '\n' :: s, ?_⟩
    rw [himp]
    simp
  | some bL =>
    refine ⟨s.take (bL.1 + bL.2) ++ '\n' :: lc "import ct from \"",
      lc ";" ++ s.drop (bL.1 + bL.2), ?_⟩
    rw [himp]
    simp

/-! ## Equation lemmas for the vite stages -/

theorem registerPlugin_eq_ct (u : Str) (hct : containsB ctViteToken u = true) :
    registerPlugin u = (u, false, []) := by
  unfold registerPlugin
  rw [if_pos hct]

theorem registerPlugin_eq_sv (u : Str) (q L : Nat)
    (hct : containsB ctViteToken u = false)
    (h : findFirstMatch sveltekitPat u = some (q, L)) :
    registerPlugin u = (u.take q ++ sveltekitRepl ++ u.drop (q + L), true, []) := by
  unfold registerPlugin
  rw [hct]
  simp only [Bool.false_eq_true, if_false]
  rw [if_pos (sveltekit_sub_ne u q L h)]
  rw [subFirst_eq _ _ _ _ _ h]

theorem registerPlugin_eq_pl (u : Str) (q L : Nat)
    (hct : containsB ctViteToken u = false)
    (hn : findFirstMatch sveltekitPat u = none)
    (h : findFirstMatch pluginsPat u = some (q, L)) :
    registerPlugin u = (u.take q ++ pluginsRepl ++ u.drop (q + L), true, []) := by
  unfold registerPlugin
  rw [hct]
  simp only [Bool.false_eq_true, if_false]
  rw [subFirst_none _ _ _ hn]
  simp only [ne_eq, not_true_eq_false, if_false]
  rw [if_pos (by simp [h])]
  rw [subFirst_eq _ _ _ _ _ h]

theorem registerPlugin_eq_warn (u : Str)
    (hct : containsB ctViteToken u = false)
    (hn1 : findFirstMatch sveltekitPat u = none)
    (hn2 : findFirstMatch pluginsPat u = none) :
    registerPlugin u = (u, false,
      [lc "Could not find a plugins array in vite.config. Add ct.vite() manually."]) := by
  unfold registerPlugin
  rw [hct]
  simp only [Bool.false_eq_true, if_false]
  rw [subFirst_none _ _ _ hn1]
  simp only [ne_eq, not_true_eq_false, if_false]
  rw [if_neg (by simp [hn2])]

theorem aliasStage_eq_jsr (u : Str) (hj : containsB jsrToken u = true) :
    aliasStage u = (u, false, []) := by
  unfold aliasStage
  rw [if_pos hj]

theorem aliasStage_eq_alias (u : Str) (q L : Nat)
    (hj : containsB jsrToken u = false)
    (hr : (findFirstMatch resolvePat u).isSome = true)
    (ha : findFirstMatch aliasPat u = some (q, L)) :
    aliasStage u = (u.take q ++ aliasRepl ++ u.drop (q + L), true, []) := by
  unfold aliasStage
  rw [hj]
  simp only [Bool.false_eq_true, if_false]
  rw [if_pos hr, if_pos (by simp [ha]), subFirst_eq _ _ _ _ _ ha]

theorem aliasStage_eq_resolve (u : Str) (q L : Nat)
    (hj : containsB jsrToken u = false)
    (hra : findFirstMatch aliasPat u = none)
    (hr : findFirstMatch resolvePat u = some (q, L)) :
    aliasStage u = (u.take q ++ resolveRepl ++ u.drop (q + L), true, []) := by
  unfold aliasStage
  rw [hj]
  simp only [Bool.false_eq_true, if_false]
  rw [if_pos (by simp [hr]), if_neg (by simp [hra]), subFirst_eq _ _ _ _ _ hr]

theorem aliasStage_eq_dc (u : Str) (q L : Nat)
    (hj : containsB jsrToken u = false)
    (hr : findFirstMatch resolvePat u = none)
    (hd : findFirstMatch defineConfigPat u = some (q, L)) :
    aliasStage u = (u.take (q + L) ++ '\n' :: (aliasSnippet ++ u.drop (q + L)),
      true, []) := by
  unfold aliasStage
  rw [hj]
  simp only [Bool.false_eq_true, if_false]
  rw [if_neg (by simp [hr]), hd]

theorem aliasStage_eq_warn (u : Str)
    (hj : containsB jsrToken u = false)
    (hr : findFirstMatch resolvePat u = none)
    (hd : findFirstMatch defineConfigPat u = none) :
    aliasStage u = (u, false,
      [lc "Could not insert Vite resolve.alias entry. Add it manually."]) := by
  unfold aliasStage
  rw [hj]
  simp only [Bool.false_eq_true, if_false]
  rw [if_neg (by simp [hr]), hd]

theorem marker_of_occQ (t : Str) (h : containsB occQ t = true) :
    containsB cssTsMarker t = true :=
  containsB_of_append_left cssTsMarker ['"'] t h

/-- A text that already carries the marker, satisfies the plugin gate and
satisfies the alias gate is left unchanged by `viteTransform`. -/
theorem viteTransform_nochange (t : Str) (mode : Bool)
    (hG1 : containsB cssTsMarker t = true)
    (hG2 : containsB ctViteToken t = true ∨
      (findFirstMatch sveltekitPat t = none ∧ findFirstMatch pluginsPat t = none))
    (hG3 : mode = true → (containsB jsrToken t = true ∨
      (findFirstMatch resolvePat t = none ∧
       findFirstMatch defineConfigPat t = none))) :
    (viteTransform t mode).2.1 = false := by
  have hrp : (registerPlugin t).1 = t ∧ (registerPlugin t).2.1 = false := by
    rcases hG2 with h | ⟨h1, h2⟩
    · rw [registerPlugin_eq_ct t h]
      exact ⟨rfl, rfl⟩
    · by_cases hct : containsB ctViteToken t = true
      · rw [registerPlugin_eq_ct t hct]
        exact ⟨rfl, rfl⟩
      · rw [registerPlugin_eq_warn t (by rwa [Bool.not_eq_true] at hct) h1 h2]
        exact ⟨rfl, rfl⟩
  cases mode with
  | false => simp [viteTransform, hG1, hrp.2]
  | true =>
    have has : (aliasStage t).2.1 = false := by
      rcases hG3 rfl with h | ⟨h1, h2⟩
      · rw [aliasStage_eq_jsr t h]
      · by_cases hj : containsB jsrToken t = true
        · rw [aliasStage_eq_jsr t hj]
        · rw [aliasStage_eq_warn t (by rwa [Bool.not_eq_true] at hj) h1 h2]
    simp [viteTransform, hG1, hrp.1, hrp.2, has]

/-- After plugin registration on a text carrying `occQ`, the text still
carries `occQ` and satisfies the plugin gate for a second run. -/
theorem registerPlugin_stage (u₁ : Str) (hQ1 : containsB occQ u₁ = true) :
    containsB occQ (registerPlugin u₁).1 = true ∧
    (containsB ctViteToken (registerPlugin u₁).1 = true ∨
      (findFirstMatch sveltekitPat (registerPlugin u₁).1 = none ∧
       findFirstMatch pluginsPat (registerPlugin u₁).1 = none)) := by
  by_cases hct : containsB ctViteToken u₁ = true
  · rw [registerPlugin_eq_ct u₁ hct]
    exact ⟨hQ1, .inl hct⟩
  · have hctf : containsB ctViteToken u₁ = false := by
      rwa [Bool.not_eq_true] at hct
    cases hsv : findFirstMatch sveltekitPat u₁ with
    | some qL =>
      rw [registerPlugin_eq_sv u₁ qL.1 qL.2 hctf (by rw [hsv])]
      exact ⟨occQ_sv_preserved u₁ qL.1 qL.2 hQ1
          (findFirstMatch_sound _ u₁ qL.1 qL.2 (by rw [hsv])).1,
        .inl (containsB_mono _ sveltekitRepl _ _ (by decide))⟩
    | none =>
      cases hpl : findFirstMatch pluginsPat u₁ with
      | some qL =>
        rw [registerPlugin_eq_pl u₁ qL.1 qL.2 hctf hsv (by rw [hpl])]
        exact ⟨occQ_pl_preserved u₁ qL.1 qL.2 hQ1
            (findFirstMatch_sound _ u₁ qL.1 qL.2 (by rw [hpl])).1,
          .inl (containsB_mono _ pluginsRepl _ _ (by decide))⟩
      | none =>
        rw [registerPlugin_eq_warn u₁ hctf hsv hpl]
        exact ⟨hQ1, .inr ⟨hsv, hpl⟩⟩

/-- After the alias stage on a text carrying `occQ` and satisfying the
plugin gate, all three gates of a second run are satisfied. -/
theorem aliasStage_stage (u₂ : Str)
    (hQ2 : containsB occQ u₂ = true)
    (hreg : containsB ctViteToken u₂ = true ∨
      (findFirstMatch sveltekitPat u₂ = none ∧
       findFirstMatch pluginsPat u₂ = none)) :
    containsB occQ (aliasStage u₂).1 = true ∧
    (containsB ctViteToken (aliasStage u₂).1 = true ∨
      (findFirstMatch sveltekitPat (aliasStage u₂).1 = none ∧
       findFirstMatch pluginsPat (aliasStage u₂).1 = none)) ∧
    (containsB jsrToken (aliasStage u₂).1 = true ∨
      (findFirstMatch resolvePat (aliasStage u₂).1 = none ∧
       findFirstMatch defineConfigPat (aliasStage u₂).1 = none)) := by
  by_cases hj : containsB jsrToken u₂ = true
  · rw [aliasStage_eq_jsr u₂ hj]
    exact ⟨hQ2, hreg, .inl hj⟩
  · have hjf : containsB jsrToken u₂ = false := by
      rwa [Bool.not_eq_true] at hj
    cases hr : findFirstMatch resolvePat u₂ with
    | some qL =>
      cases hra : findFirstMatch aliasPat u₂ with
      | some qa =>
        rw [aliasStage_eq_alias u₂ qa.1 qa.2 hjf (by rw [hr]; rfl) (by rw [hra])]
        refine ⟨containsB_mono _ aliasRepl _ _ (by decide), ?_,
          .inl (containsB_mono _ aliasRepl _ _ (by decide))⟩
        rcases hreg with hct | ⟨hsv, hpl⟩
        · exact .inl (ct_alias_preserved u₂ qa.1 qa.2 hct
            (findFirstMatch_sound _ u₂ qa.1 qa.2 (by rw [hra])).1)
        · exact .inr ⟨sv_none_aliasRepl u₂ qa.1 qa.2 hsv,
            pl_none_aliasRepl u₂ qa.1 qa.2 hpl⟩
      | none =>
        rw [aliasStage_eq_resolve u₂ qL.1 qL.2 hjf hra (by rw [hr])]
        refine ⟨containsB_mono _ resolveRepl _ _ (by decide), ?_,
          .inl (containsB_mono _ resolveRepl _ _ (by decide))⟩
        rcases hreg with hct | ⟨hsv, hpl⟩
        · exact .inl (ct_resolve_preserved u₂ qL.1 qL.2 hct
            (findFirstMatch_sound _ u₂ qL.1 qL.2 (by rw [hr])).1)
        · exact .inr ⟨sv_none_resolveRepl u₂ qL.1 qL.2 hsv,
            pl_none_resolveRepl u₂ qL.1 qL.2 hpl⟩
    | none =>
      cases hd : findFirstMatch defineConfigPat u₂ with
      | some qL =>
        rw [aliasStage_eq_dc u₂ qL.1 qL.2 hjf hr (by rw [hd])]
        have hform : u₂.take (qL.1 + qL.2) ++
            '\n' :: (aliasSnippet ++ u₂.drop (qL.1 + qL.2))
            = u₂.take (qL.1 + qL.2) ++ ('\n' :: aliasSnippet) ++
              u₂.drop (qL.1 + qL.2) := by
          simp
        rw [hform]
        refine ⟨containsB_mono _ ('\n' :: aliasSnippet) _ _ (by decide), ?_,
          .inl (containsB_mono _ ('\n' :: aliasSnippet) _ _ (by decide))⟩
        rcases hreg with hct | ⟨hsv, hpl⟩
        · exact .inl (ct_defineConfig_preserved u₂ qL.1 qL.2 hct
            (findFirstMatch_sound _ u₂ qL.1 qL.2 (by rw [hd])).1)
        · exact .inr ⟨sv_none_snippet u₂ (qL.1 + qL.2) hsv,
            pl_none_snippet u₂ (qL.1 + qL.2) hpl⟩
      | none =>
        rw [aliasStage_eq_warn u₂ hjf hr hd]
        exact ⟨hQ2, hreg, .inr ⟨hr, hd⟩⟩

/-- On a marker-free starting text, the second run of the full vite text
transformation reports no change. -/
theorem viteTransform_second (u : Str) (mode : Bool)
    (hm : containsB cssTsMarker u = false) :
    (viteTransform (viteTransform u mode).1 mode).2.1 = false := by
  obtain ⟨X, Y, hXY⟩ := insert_import_occQ u
  have hQ1 : containsB occQ (insert_import u importLine) = true := by
    rw [hXY]
    exact containsB_mid _ _ _
  obtain ⟨hQ2, hreg⟩ := registerPlugin_stage (insert_import u importLine) hQ1
  cases mode with
  | false =>
    have ht : (viteTransform u false).1 =
        (registerPlugin (insert_import u importLine)).1 := by
      simp [viteTransform, hm]
    rw [ht]
    exact viteTransform_nochange _ false (marker_of_occQ _ hQ2) hreg
      (fun h => nomatch h)
  | true =>
    obtain ⟨hQ3, hreg3, hj3⟩ := aliasStage_stage _ hQ2 hreg
    have ht : (viteTransform u true).1 =
        (aliasStage (registerPlugin (insert_import u importLine)).1).1 := by
      simp [viteTransform, hm]
    rw [ht]
    exact viteTransform_nochange _ true (marker_of_occQ _ hQ3) hreg3
      (fun _ => hj3)

/-- `update_vite_config` run twice equals run once, whenever the config
file it finds does not already contain the marker substring. -/
theorem update_vite_config_idem (fs : FS) (mode : Bool)
    (hm : ∀ name content, find_first fs VITE_CONFIG_CANDIDATES = some name →
      readFile fs name = some content → containsB cssTsMarker content = false) :
    fsAfterM (fun f => update_vite_config f mode)
      (fsAfterM (fun f => update_vite_config f mode) fs) =
    fsAfterM (fun f => update_vite_config f mode) fs := by
  cases hff : find_first fs VITE_CONFIG_CANDIDATES with
  | none =>
    have h1 : fsAfterM (fun f => update_vite_config f mode) fs = fs := by
      show (update_vite_config fs mode).fs = fs
      unfold update_vite_config
      rw [hff]
    rw [h1, h1]
  | some name =>
    have hrs := find_first_isSome fs VITE_CONFIG_CANDIDATES name hff
    obtain ⟨content, hrd⟩ := Option.isSome_iff_exists.mp hrs
    have hmf := hm name content hff hrd
    cases ht : (viteTransform content mode).2.1 with
    | false =>
      have h1 : fsAfterM (fun f => update_vite_config f mode) fs = fs := by
        show (update_vite_config fs mode).fs = fs
        unfold update_vite_config
        rw [hff]
        simp [hrd, ht]
      rw [h1, h1]
    | true =>
      have h1 : fsAfterM (fun f => update_vite_config f mode) fs
          = writeFile fs name (viteTransform content mode).1 := by
        show (update_vite_config fs mode).fs = _
        unfold update_vite_config
        rw [hff]
        simp [hrd, ht]
      rw [h1]
      have hff2 : find_first (writeFile fs name (viteTransform content mode).1)
          VITE_CONFIG_CANDIDATES = some name := by
        rw [find_first_writeFile fs name _ hrs]
        exact hff
      have hrd2 : readFile (writeFile fs name (viteTransform content mode).1) name
          = some (viteTransform content mode).1 := by
        rw [readFile_writeFile]
        simp
      have hsecond := viteTransform_second content mode hmf
      show (update_vite_config (writeFile fs name (viteTransform content mode).1)
        mode).fs = writeFile fs name (viteTransform content mode).1
      unfold update_vite_config
      rw [hff2]
      simp [hrd2, hsecond]

/-! ## C1: idempotence of the three mutators -/

/-- C1 counterexample: `update_vite_config` is not idempotent on every
starting content.  The content `@kt-tools/css-tsveltekit()` contains the
marker substring, so the first run skips the import but rewrites
`sveltekit()`; the rewrite consumes the final `s` of the marker, so the
second run finds no marker and inserts the import line, changing the file
again. -/
theorem c1_counterexample :
    fsAfterM (fun f => update_vite_config f false)
        (fsAfterM (fun f => update_vite_config f false)
          [(lc "vite.config.ts", lc "@kt-tools/css-tsveltekit()")]) ≠
      fsAfterM (fun f => update_vite_config f false)
        [(lc "vite.config.ts", lc "@kt-tools/css-tsveltekit()")] := by
  decide

/-- C1 (amended): each of the three mutators, run twice on the same
starting directory, yields the directory of a single run, under the
stated per-instance provisos: the Deno and package mutators whenever the
JSON document they write parses back to itself (true of every document the
serializer emits), and the vite mutator whenever the config file found
does not already contain the marker substring `@kt-tools/css-ts` (a
content straddling the marker and a rewrite site, such as
`@kt-tools/css-tsveltekit()`, breaks idempotence). -/
theorem c1_mutator_idempotence (descriptor : Option Str) (fs : FS) (mode : Bool)
    (hdeno : ∀ d, denoWrittenObj descriptor fs = some d →
      parse_json_like (dumpsFile (Json.obj d)) = some (Json.obj d))
    (hpkg : ∀ d, pkgWrittenObj descriptor fs = some d →
      loads (dumpsFile (Json.obj d)) = some (Json.obj d))
    (hvite : ∀ name content, find_first fs VITE_CONFIG_CANDIDATES = some name →
      readFile fs name = some content → containsB cssTsMarker content = false) :
    fsAfterE (update_deno_config descriptor)
        (fsAfterE (update_deno_config descriptor) fs) =
      fsAfterE (update_deno_config descriptor) fs ∧
    fsAfterE (update_package_json descriptor)
        (fsAfterE (update_package_json descriptor) fs) =
      fsAfterE (update_package_json descriptor) fs ∧
    fsAfterM (fun f => update_vite_config f mode)
        (fsAfterM (fun f => update_vite_config f mode) fs) =
      fsAfterM (fun f => update_vite_config f mode) fs :=
  ⟨update_deno_config_idem descriptor fs hdeno,
   update_package_json_idem descriptor fs hpkg,
   update_vite_config_idem fs mode hvite⟩

/-- A concrete project directory for the C1 witness: an empty
`package.json` and a plain SvelteKit vite config. -/
def c1fs : FS :=
  [(lc "package.json", lc "\x7b\x7d"),
   (lc "vite.config.ts",
    lc "export default defineConfig(\x7b plugins: [sveltekit()] \x7d);")]

/-- The object `update_package_json` writes on `c1fs`. -/
def c1pkgW : List (Str × Json) :=
  [(lc "dependencies",
    Json.obj [(lc "@kt-tools/css-ts", Json.str (lc "npm:@jsr/kt-tools__css-ts"))])]

/-- Witness for C1 at the concrete directory `c1fs`. -/
theorem c1_witness :
    fsAfterE (update_deno_config none) (fsAfterE (update_deno_config none) c1fs) =
      fsAfterE (update_deno_config none) c1fs ∧
    fsAfterE (update_package_json none)
        (fsAfterE (update_package_json none) c1fs) =
      fsAfterE (update_package_json none) c1fs ∧
    fsAfterM (fun f => update_vite_config f false)
        (fsAfterM (fun f => update_vite_config f false) c1fs) =
      fsAfterM (fun f => update_vite_config f false) c1fs :=
  c1_mutator_idempotence none c1fs false
    (by
      intro d hd
      rw [show denoWrittenObj none c1fs = none from rfl] at hd
      exact Option.noConfusion hd)
    (by
      intro d hd
      rw [show pkgWrittenObj none c1fs = some c1pkgW from rfl] at hd
      injection hd with hd
      subst hd
      rfl)
    (by
      intro name content h1 h2
      rw [show find_first c1fs VITE_CONFIG_CANDIDATES =
        some (lc "vite.config.ts") from rfl] at h1
      injection h1 with h1
      subst h1
      rw [show readFile c1fs (lc "vite.config.ts") = some
        (lc "export default defineConfig(\x7b plugins: [sveltekit()] \x7d);")
        from rfl] at h2
      injection h2 with h2
      subst h2
      decide)
